import Mathlib

/-!
# Clipshot: the native capture ring buffer (clip.cpp)

A shallow embedding of `app/src/main/cpp/clip.cpp`.

* C++ `int` / `int64_t` values are `Int`.  Every intermediate value of the program stays inside
  the machine range for the constants of the file (`BUFFER_SIZE = 1323000`), so no wrap-around is
  modelled; C++ `%` on `int` is `Int.tmod` (truncated remainder).
* `std::array<int16_t, BUFFER_SIZE>` is a `List Int` (of length `C`); the capacity is a parameter
  `C` of the operations, `BUFFER_SIZE` being the value the program uses.
* A pointer argument that may be null is an `Option`; the pointee is the list of the elements it
  points to, and writing through the pointer is `List.set`.
* Globals are the fields of `Globals`; an operation that may write them takes and returns the
  state.  The monotonic clock read by `nowNs()` and the outcome of Oboe / JNI calls are arguments.
* `for (int i = 0; i < n; ++i)` is a recursion on the number of iterations left.
-/

namespace Clipshot

/-! ## Constants -/

/-- Sample rate, `constexpr int SAMPLE_RATE = 44100`. -/
def SAMPLE_RATE : Nat := 44100

/-- Channel count, `constexpr int CHANNELS = 1`. -/
def CHANNELS : Nat := 1

/-- Window length, `constexpr int DURATION_SECONDS = 30`. -/
def DURATION_SECONDS : Nat := 30

/-- Capacity of the store, `SAMPLE_RATE * CHANNELS * DURATION_SECONDS`. -/
def BUFFER_SIZE : Nat := SAMPLE_RATE * CHANNELS * DURATION_SECONDS

/-- Watchdog timeout of `isRecordingActive`, `TIMEOUT_NS = 2000000000` nanoseconds. -/
def TIMEOUT_NS : Int := 2000000000

/-! ## State -/

/-- The members of `class InputCallback`: the sample store and the write cursor. -/
structure InputCallback where
  mBuffer : List Int
  mWriteIndex : Int
  deriving DecidableEq

/-- The stream object behind `gStream`; `started` records `requestStart()`. -/
structure AudioStream where
  started : Bool
  deriving DecidableEq

/-- The file-level globals `gStream`, `gRecordingActive`, `gLastCallbackNs`, `gCallback`. -/
structure Globals where
  gStream : Option AudioStream
  gRecordingActive : Bool
  gLastCallbackNs : Int
  gCallback : InputCallback
  deriving DecidableEq

/-- The result type `oboe::DataCallbackResult`. -/
inductive DataCallbackResult where
  | Continue
  | Stop
  deriving DecidableEq

/-- The constructor `InputCallback()`: cursor `0`, store filled with `0`. -/
def InputCallback.new (C : Nat) : InputCallback :=
  { mBuffer := List.replicate C 0, mWriteIndex := 0 }

/-- The globals at program start: no stream, not active, timestamp `0`, fresh callback. -/
def Globals.init (C : Nat) : Globals :=
  { gStream := none, gRecordingActive := false, gLastCallbackNs := 0,
    gCallback := InputCallback.new C }

/-! ## The producer: `InputCallback::onAudioReady` -/

/-- The write loop of `onAudioReady`, with `k` iterations left and loop counter `i`:
`mBuffer[write] = input[i]; write = (write + 1) % BUFFER_SIZE;`. -/
def writeLoop (C : Nat) (input : List Int) : Nat → Nat → List Int → Int → List Int × Int
  | 0, _, mBuffer, write => (mBuffer, write)
  | k + 1, i, mBuffer, write =>
      writeLoop C input k (i + 1) (mBuffer.set write.toNat (input.getD i 0))
        ((write + 1).tmod (C : Int))

/-- The method `InputCallback::onAudioReady(stream, audioData, numFrames)`; `now` is the value
`nowNs()` returns during the call. -/
def onAudioReady (C : Nat) (g : Globals) (now : Int) (audioData : Option (List Int))
    (numFrames : Int) : Globals × DataCallbackResult :=
  match audioData with
  | none => (g, DataCallbackResult.Continue)
  | some input =>
      let samples : Int := numFrames * (CHANNELS : Int)
      let write : Int := g.gCallback.mWriteIndex
      let r := writeLoop C input samples.toNat 0 g.gCallback.mBuffer write
      ({ g with
          gRecordingActive := true
          gLastCallbackNs := now
          gCallback := { mBuffer := r.1, mWriteIndex := r.2 } },
        DataCallbackResult.Continue)

/-! ## The consumer: `InputCallback::copySnapshot` -/

/-- The start index of a snapshot, `(write - totalSamples + BUFFER_SIZE) % BUFFER_SIZE`. -/
def snapshotStart (C : Nat) (write totalSamples : Int) : Int :=
  (write - totalSamples + (C : Int)).tmod (C : Int)

/-- The store index read at iteration `i`, `(start + i) % BUFFER_SIZE`. -/
def readIndex (C : Nat) (start : Int) (i : Nat) : Int :=
  (start + (i : Int)).tmod (C : Int)

/-- The copy loop of `copySnapshot`, with `k` iterations left and loop counter `i`:
`out[i] = mBuffer[(start + i) % BUFFER_SIZE];`. -/
def copyLoop (C : Nat) (mBuffer : List Int) (start : Int) : Nat → Nat → List Int → List Int
  | 0, _, out => out
  | k + 1, i, out =>
      copyLoop C mBuffer start k (i + 1) (out.set i (mBuffer.getD (readIndex C start i).toNat 0))

/-- The clamped sample count `std::min(frames * CHANNELS, BUFFER_SIZE)`. -/
def totalSamples (C : Nat) (frames : Int) : Int :=
  min (frames * (CHANNELS : Int)) (C : Int)

/-- The method `InputCallback::copySnapshot(out, frames)`: returns the object (which the body
never assigns) and the contents of `out` after the call. -/
def InputCallback.copySnapshot (C : Nat) (self : InputCallback) (out : Option (List Int))
    (frames : Int) : InputCallback × Option (List Int) :=
  match out with
  | none => (self, none)
  | some o =>
      if frames ≤ 0 then (self, some o)
      else
        let n : Int := totalSamples C frames
        let write : Int := self.mWriteIndex
        let start : Int := snapshotStart C write n
        (self, some (copyLoop C self.mBuffer start n.toNat 0 o))

/-! ## Sequences of deliveries -/

/-- One delivery of the samples `xs` at time `t`: `onAudioReady(stream, xs, |xs| / CHANNELS)`. -/
def deliver (C : Nat) (g : Globals) (t : Int) (xs : List Int) : Globals :=
  (onAudioReady C g t (some xs) ((xs.length : Int) / (CHANNELS : Int))).1

/-- A sequence of deliveries, each a time stamp and a block of samples, applied in order. -/
def deliverAll (C : Nat) (g : Globals) : List (Int × List Int) → Globals
  | [] => g
  | d :: rest => deliverAll C (deliver C g d.1 d.2) rest

/-- All samples of a sequence of deliveries, in write order. -/
def written : List (Int × List Int) → List Int
  | [] => []
  | d :: rest => d.2 ++ written rest

/-- The last `n` elements of a list. -/
def lastN (n : Nat) (l : List Int) : List Int :=
  l.drop (l.length - n)

/-! ## Predicates used in the statements -/

/-- A well-formed callback object: the store has `C` slots and the cursor is a slot index. -/
def WellFormed (C : Nat) (cb : InputCallback) : Prop :=
  cb.mBuffer.length = C ∧ 0 ≤ cb.mWriteIndex ∧ cb.mWriteIndex < (C : Int)

instance (C : Nat) (cb : InputCallback) : Decidable (WellFormed C cb) := by
  unfold WellFormed; infer_instance

/-- The ring invariant: the store has `C` slots, the cursor `w` is a slot index, and reading
the store from `w` onwards (wrapping) gives the last `C` elements of the history `hist`. -/
def RingInv (C : Nat) (cb : InputCallback) (hist : List Int) : Prop :=
  cb.mBuffer.length = C ∧ C ≤ hist.length ∧
    ∃ w : Nat, cb.mWriteIndex = (w : Int) ∧ w < C ∧ cb.mBuffer.rotate w = lastN C hist

/-- The sample `copySnapshot` stores at `out[i]`. -/
def snapshotSample (C : Nat) (cb : InputCallback) (n : Int) (i : Nat) : Int :=
  cb.mBuffer.getD (readIndex C (snapshotStart C cb.mWriteIndex n) i).toNat 0

/-! ## The liveness watchdog and the stream life cycle -/

/-- The function `Java_dev_rylry_clip_NativeAudio_isRecordingActive`; `now` is the value
`nowNs()` returns during the call.  Returns the globals (which the body never assigns) and the
result. -/
def Java_dev_rylry_clip_NativeAudio_isRecordingActive (g : Globals) (now : Int) :
    Globals × Bool :=
  if !g.gRecordingActive then (g, false)
  else
    let last : Int := g.gLastCallbackNs
    (g, if now - last < TIMEOUT_NS then true else false)

/-- The result code `oboe::Result` of `openStream`. -/
inductive OboeResult where
  | OK
  | Error (code : Int)
  deriving DecidableEq

/-- The function `Java_dev_rylry_clip_NativeAudio_start`.  The outcome of
`builder.openStream(gStream)` is an argument: the result code `r` and whether `gStream` holds a
stream afterwards (`opened`). -/
def Java_dev_rylry_clip_NativeAudio_start (g : Globals) (r : OboeResult) (opened : Bool) :
    Globals :=
  match g.gStream with
  | some _ => g
  | none =>
      let g1 : Globals :=
        { g with gStream := if opened then some { started := false } else none }
      if r ≠ OboeResult.OK ∨ g1.gStream = none then g1
      else { g1 with gStream := some { started := true } }

/-- The function `Java_dev_rylry_clip_NativeAudio_stop`. -/
def Java_dev_rylry_clip_NativeAudio_stop (g : Globals) : Globals :=
  match g.gStream with
  | none => g
  | some _ => { g with gStream := none, gRecordingActive := false }

/-- The calls of a sequential run: `start()` with the outcome of opening the stream, a delivery
callback of the stream with the clock value it reads, and `stop()`. -/
inductive Event where
  | start (r : OboeResult) (opened : Bool)
  | callback (now : Int) (audioData : Option (List Int)) (numFrames : Int)
  | stop
  deriving DecidableEq

/-- The effect of one call on the globals. -/
def step (C : Nat) (g : Globals) : Event → Globals
  | Event.start r opened => Java_dev_rylry_clip_NativeAudio_start g r opened
  | Event.callback now audioData numFrames => (onAudioReady C g now audioData numFrames).1
  | Event.stop => Java_dev_rylry_clip_NativeAudio_stop g

/-- Which calls can happen in a state: a delivery callback comes from the stream held in
`gStream`, so it needs one; `start()` and `stop()` can always be called. -/
def enabled (g : Globals) : Event → Bool
  | Event.callback _ _ _ => g.gStream.isSome
  | _ => true

/-- Runs a trace of calls from `g`; `none` when a call of the trace cannot happen. -/
def runTrace (C : Nat) (g : Globals) : List Event → Option Globals
  | [] => some g
  | e :: rest => if enabled g e then runTrace C (step C g e) rest else none

/-! ## The JNI reader: `Java_dev_rylry_clip_NativeAudio_copySnapshot` -/

/-- Conversion of an `int` to `jbyte` (signed 8 bits), as the assignment `buffer[j] = e` does. -/
def toJbyte (x : Int) : Int :=
  (x + 128) % 256 - 128

/-- The low byte stored for a sample, `sample & 0xFF` converted to `jbyte`. -/
def lowByte (sample : Int) : Int :=
  toJbyte (Int.land sample 0xFF)

/-- The high byte stored for a sample, `(sample >> 8) & 0xFF` converted to `jbyte`. -/
def highByte (sample : Int) : Int :=
  toJbyte (Int.land (Int.shiftRight sample 8) 0xFF)

/-- The serialization loop of the JNI `copySnapshot`, with `k` iterations left and loop counter
`i`: `buffer[2*i] = sample & 0xFF; buffer[2*i + 1] = (sample >> 8) & 0xFF;`. -/
def serializeLoop (temp : List Int) : Nat → Nat → List Int → List Int
  | 0, _, buffer => buffer
  | k + 1, i, buffer =>
      let sample : Int := temp.getD i 0
      serializeLoop temp k (i + 1)
        ((buffer.set (2 * i) (lowByte sample)).set (2 * i + 1) (highByte sample))

/-- The function `Java_dev_rylry_clip_NativeAudio_copySnapshot(env, obj, outArray)`.  The array
is the list of its bytes (`none` for a null reference); `pinned` tells whether
`GetByteArrayElements` returned the elements.  Returns the globals and the array after the
call. -/
def Java_dev_rylry_clip_NativeAudio_copySnapshot (C : Nat) (g : Globals)
    (outArray : Option (List Int)) (pinned : Bool) : Globals × Option (List Int) :=
  match outArray with
  | none => (g, none)
  | some bytes =>
      let len : Int := (bytes.length : Int)
      if !pinned then (g, some bytes)
      else
        let frames : Int := Int.tdiv len 2
        let temp : List Int := List.replicate frames.toNat 0
        let r := g.gCallback.copySnapshot C (some temp) frames
        let buffer := serializeLoop (r.2.getD temp) frames.toNat 0 bytes
        ({ g with gCallback := r.1 }, some buffer)

/-- The unsigned value of the 8 bits of a `jbyte`. -/
def byteBits (b : Int) : Int :=
  b % 256

/-- Decodes a little-endian byte pair as an unsigned 16-bit value and reinterprets it as a
16-bit twos-complement integer. -/
def decode16 (lo hi : Int) : Int :=
  let u : Int := byteBits lo + 256 * byteBits hi
  if 32768 ≤ u then u - 65536 else u

/-- The little-endian byte sequence of a list of samples: low byte, then high byte. -/
def encodeLE : List Int → List Int
  | [] => []
  | s :: rest => lowByte s :: highByte s :: encodeLE rest

/-- The range of `int16_t`, the element type of the store and of the callback input. -/
def IsInt16 (x : Int) : Prop :=
  -32768 ≤ x ∧ x ≤ 32767

/-! ## Outcomes of opening the stream -/

/-- What the Oboe library guarantees about `AudioStreamBuilder::openStream(gStream)`: the
shared pointer holds a stream afterwards exactly when the result code is `OK`. -/
def OpenContract (r : OboeResult) (opened : Bool) : Prop :=
  r = OboeResult.OK ↔ opened = true

instance (r : OboeResult) (opened : Bool) : Decidable (OpenContract r opened) := by
  unfold OpenContract; infer_instance

/-- The failure test of `start()`, `r != oboe::Result::OK || !gStream`. -/
def OpenFailed (r : OboeResult) (opened : Bool) : Prop :=
  r ≠ OboeResult.OK ∨ opened = false

instance (r : OboeResult) (opened : Bool) : Decidable (OpenFailed r opened) := by
  unfold OpenFailed; infer_instance

/-! ## Sequences of calls and the indices of the loops -/

/-- The calls of a sequential run that includes the readers: `onAudioReady`, the method
`copySnapshot`, the JNI `copySnapshot`, `start()` and `stop()`, with their arguments and the
external outcomes they see. -/
inductive Call where
  | onAudioReady (now : Int) (audioData : Option (List Int)) (numFrames : Int)
  | copySnapshot (out : Option (List Int)) (frames : Int)
  | jniCopySnapshot (outArray : Option (List Int)) (pinned : Bool)
  | start (r : OboeResult) (opened : Bool)
  | stop
  deriving DecidableEq

/-- The effect of one call on the globals. -/
def stepCall (C : Nat) (g : Globals) : Call → Globals
  | Call.onAudioReady now audioData numFrames => (onAudioReady C g now audioData numFrames).1
  | Call.copySnapshot out frames =>
      { g with gCallback := (g.gCallback.copySnapshot C out frames).1 }
  | Call.jniCopySnapshot outArray pinned =>
      (Java_dev_rylry_clip_NativeAudio_copySnapshot C g outArray pinned).1
  | Call.start r opened => Java_dev_rylry_clip_NativeAudio_start g r opened
  | Call.stop => Java_dev_rylry_clip_NativeAudio_stop g

/-- The state after a sequence of calls. -/
def runCalls (C : Nat) (g : Globals) : List Call → Globals
  | [] => g
  | c :: rest => runCalls C (stepCall C g c) rest

/-- The successive values of `write` at the assignments `mBuffer[write] = input[i]` of the
write loop, for `k` iterations starting from the cursor `write`. -/
def writeLoopIdx (C : Nat) : Nat → Int → List Int
  | 0, _ => []
  | k + 1, write => write :: writeLoopIdx C k ((write + 1).tmod (C : Int))

/-- The write effect as the specification words it: the sample at input position `i` is stored
at slot `(w + i) mod C`, position after position (`w` is the cursor plus the number of samples
already stored). -/
def storeAll (C : Nat) : List Int → Nat → List Int → List Int
  | [], _, mBuffer => mBuffer
  | x :: rest, w, mBuffer => storeAll C rest (w + 1) (mBuffer.set (w % C) x)

/-! # Lemmas -/

/-! ## Arithmetic of the indices -/

theorem tmod_natCast (a C : Nat) : ((a : Int)).tmod (C : Int) = ((a % C : Nat) : Int) := by
  rw [Int.tmod_eq_emod (Int.ofNat_nonneg a) (Int.ofNat_nonneg C)]
  exact (Int.natCast_mod a C).symm

theorem tmod_succ_cursor (w C : Nat) :
    (((w : Int) + 1).tmod (C : Int)) = (((w + 1) % C : Nat) : Int) := by
  have h : ((w : Int) + 1) = ((w + 1 : Nat) : Int) := by push_cast; rfl
  rw [h, tmod_natCast]

theorem lastN_length (n : Nat) (l : List Int) (h : n ≤ l.length) : (lastN n l).length = n := by
  simp [lastN]; omega

theorem lastN_snoc (n : Nat) (l : List Int) (x : Int) (hn : 0 < n) (h : n ≤ l.length) :
    lastN n (l ++ [x]) = (lastN n l).tail ++ [x] := by
  unfold lastN
  rw [List.tail_drop, List.length_append, List.length_singleton,
    List.drop_append_of_le_length (by omega)]
  congr 2
  omega

theorem lastN_lastN (n m : Nat) (l : List Int) (hnm : n ≤ m) (h : m ≤ l.length) :
    lastN n (lastN m l) = lastN n l := by
  unfold lastN
  rw [List.drop_drop, List.length_drop]
  congr 1
  omega

/-! ## The ring invariant -/

theorem rotate_set_succ (buf : List Int) (w : Nat) (x : Int) (hw : w < buf.length) :
    (buf.set w x).rotate ((w + 1) % buf.length) = (buf.rotate w).tail ++ [x] := by
  have hset : buf.set w x = (buf.take w ++ [x]) ++ buf.drop (w + 1) := by
    rw [List.set_eq_take_append_cons_drop]
    simp [hw]
  have hlen : (buf.take w ++ [x]).length = w + 1 := by
    simp [List.length_take]; omega
  have hl : (buf.set w x).length = buf.length := List.length_set _ _ _
  have hrot := List.rotate_append_length_eq (buf.take w ++ [x]) (buf.drop (w + 1))
  rw [hlen] at hrot
  rw [← hl, List.rotate_mod, hset, hrot, List.rotate_eq_drop_append_take (Nat.le_of_lt hw)]
  have hd : buf.drop w = buf[w] :: buf.drop (w + 1) := (List.drop_eq_getElem_cons hw)
  rw [hd, List.cons_append, List.tail_cons, List.append_assoc]

theorem writeLoop_inv (C : Nat) (input : List Int) :
    ∀ (k i : Nat) (buf : List Int) (w : Nat) (hist : List Int),
      i + k ≤ input.length →
      RingInv C { mBuffer := buf, mWriteIndex := (w : Int) } hist →
      RingInv C { mBuffer := (writeLoop C input k i buf (w : Int)).1,
                  mWriteIndex := (writeLoop C input k i buf (w : Int)).2 }
        (hist ++ (input.drop i).take k) := by
  intro k
  induction k with
  | zero =>
      intro i buf w hist _ h
      simpa [writeLoop] using h
  | succ k ih =>
      intro i buf w hist hik h
      obtain ⟨hlen, hC, w0, hw0, hwC, hrot⟩ := h
      simp only at hlen hw0 hrot
      have hww : w0 = w := by exact_mod_cast hw0.symm
      subst hww
      have hi : i < input.length := by omega
      have hstep : writeLoop C input (k + 1) i buf (w0 : Int)
          = writeLoop C input k (i + 1) (buf.set w0 (input.getD i 0))
              ((((w0 + 1) % C : Nat)) : Int) := by
        rw [writeLoop, tmod_succ_cursor, Int.toNat_ofNat]
      have hdrop : (input.drop i).take (k + 1)
          = [input.getD i 0] ++ (input.drop (i + 1)).take k := by
        rw [List.drop_eq_getElem_cons hi, List.take_succ_cons, List.getD_eq_getElem _ _ hi]
        rfl
      rw [hstep, hdrop, ← List.append_assoc]
      apply ih (i + 1) _ ((w0 + 1) % C) _ (by omega)
      refine ⟨by simpa using hlen, by simp; omega, (w0 + 1) % C, rfl,
        Nat.mod_lt _ (by omega), ?_⟩
      have hr := rotate_set_succ buf w0 (input.getD i 0) (by omega)
      rw [hlen] at hr
      simp only
      rw [hr, hrot, lastN_snoc C hist _ (by omega) hC]

theorem ringInv_new (C : Nat) (hC : 0 < C) :
    RingInv C (InputCallback.new C) (List.replicate C 0) := by
  refine ⟨by simp [InputCallback.new], by simp, 0, rfl, hC, ?_⟩
  simp [InputCallback.new, lastN]

theorem deliver_gCallback (C : Nat) (g : Globals) (t : Int) (xs : List Int) :
    (deliver C g t xs).gCallback =
      { mBuffer := (writeLoop C xs xs.length 0 g.gCallback.mBuffer g.gCallback.mWriteIndex).1,
        mWriteIndex :=
          (writeLoop C xs xs.length 0 g.gCallback.mBuffer g.gCallback.mWriteIndex).2 } := by
  simp [deliver, onAudioReady, CHANNELS]

theorem ringInv_deliver (C : Nat) (g : Globals) (t : Int) (xs hist : List Int)
    (h : RingInv C g.gCallback hist) : RingInv C (deliver C g t xs).gCallback (hist ++ xs) := by
  rw [deliver_gCallback]
  obtain ⟨hlen, hC, w, hw, hwC, hrot⟩ := h
  have key := writeLoop_inv C xs xs.length 0 g.gCallback.mBuffer w hist (by omega)
    ⟨hlen, hC, w, rfl, hwC, hrot⟩
  rw [List.drop_zero, List.take_length, ← hw] at key
  exact key

theorem ringInv_deliverAll (C : Nat) :
    ∀ (ds : List (Int × List Int)) (g : Globals) (hist : List Int),
      RingInv C g.gCallback hist → RingInv C (deliverAll C g ds).gCallback (hist ++ written ds) := by
  intro ds
  induction ds with
  | nil => intro g hist h; simpa [deliverAll, written] using h
  | cons d rest ih =>
      intro g hist h
      have h1 := ih (deliver C g d.1 d.2) (hist ++ d.2) (ringInv_deliver C g d.1 d.2 hist h)
      simpa [deliverAll, written, List.append_assoc] using h1

/-! ## The copy loop -/

theorem copyLoop_eq (C : Nat) (buf : List Int) (start : Int) :
    ∀ (k i : Nat) (out : List Int), i + k ≤ out.length →
      copyLoop C buf start k i out =
        out.take i ++ (List.range' i k).map (fun j => buf.getD (readIndex C start j).toNat 0)
          ++ out.drop (i + k) := by
  intro k
  induction k with
  | zero => intro i out _; simp [copyLoop]
  | succ k ih =>
      intro i out h
      rw [copyLoop, ih (i + 1) _ (by simpa using (by omega : i + 1 + k ≤ out.length))]
      have h1 : (out.set i (buf.getD (readIndex C start i).toNat 0)).take (i + 1)
          = out.take i ++ [buf.getD (readIndex C start i).toNat 0] := by
        have hi : i < out.length := by omega
        have hA : (out.take i).length = i := by simp [List.length_take]; omega
        rw [List.set_eq_take_append_cons_drop, if_pos hi]
        rw [List.take_append_eq_append_take, hA, List.take_take]
        simp
      have h2 : (out.set i (buf.getD (readIndex C start i).toNat 0)).drop (i + 1 + k)
          = out.drop (i + (k + 1)) := by
        rw [List.drop_set_of_lt _ _ (by omega)]
        congr 1; omega
      rw [h1, h2, List.range'_succ]
      simp

theorem readIndex_snapshotStart (C w n i : Nat) (hn : n ≤ C) :
    (readIndex C (snapshotStart C (w : Int) (n : Int)) i).toNat = (C - n + i + w) % C := by
  have h1 : (w : Int) - (n : Int) + (C : Int) = ((w + C - n : Nat) : Int) := by omega
  have h2 : (((w + C - n) % C : Nat) : Int) + (i : Int)
      = (((w + C - n) % C + i : Nat) : Int) := by push_cast; rfl
  unfold readIndex snapshotStart
  rw [h1, tmod_natCast, h2, tmod_natCast, Int.toNat_ofNat, Nat.mod_add_mod]
  congr 1
  omega

theorem map_range_getD_drop (L : List Int) (C n : Nat) (hL : L.length = C) (hn : n ≤ C) :
    (List.range' 0 n).map (fun i => L.getD (C - n + i) 0) = L.drop (C - n) := by
  apply List.ext_getElem
  · simp [hL]; omega
  · intro i h1 h2
    simp only [List.length_map, List.length_range'] at h1
    rw [List.getElem_map, List.getElem_range', List.getElem_drop,
      List.getD_eq_getElem _ _ (by omega)]
    simp

theorem snapshotSample_ringInv (C : Nat) (cb : InputCallback) (hist : List Int) (n i : Nat)
    (h : RingInv C cb hist) (hn : n ≤ C) (hi : i < n) :
    snapshotSample C cb (n : Int) i = (lastN C hist).getD (C - n + i) 0 := by
  obtain ⟨hlen, hC, w, hw, hwC, hrot⟩ := h
  have hk : C - n + i < (cb.mBuffer.rotate w).length := by
    rw [List.length_rotate, hlen]; omega
  unfold snapshotSample
  rw [hw, readIndex_snapshotStart C w n i hn, ← hrot, List.getD_eq_getElem _ _ hk,
    List.getElem_rotate, List.getD_eq_getElem]
  · simp only [hlen]
  · rw [hlen]; exact Nat.mod_lt _ (by omega)

theorem copySnapshot_some (C : Nat) (cb : InputCallback) (out : List Int) (frames : Int)
    (hf : 0 < frames) (hlen : (totalSamples C frames).toNat ≤ out.length) :
    (cb.copySnapshot C (some out) frames).2 =
      some ((List.range' 0 (totalSamples C frames).toNat).map
              (snapshotSample C cb (totalSamples C frames))
            ++ out.drop (totalSamples C frames).toNat) := by
  unfold InputCallback.copySnapshot
  simp only
  rw [if_neg (by omega)]
  simp only
  rw [copyLoop_eq C _ _ _ 0 out (by omega)]
  simp [snapshotSample]

theorem totalSamples_of_le (C n : Nat) (hn : n ≤ C) : totalSamples C (n : Int) = (n : Int) := by
  unfold totalSamples CHANNELS
  simp
  omega

theorem copySnapshot_ringInv (C : Nat) (cb : InputCallback) (hist out : List Int) (n : Nat)
    (h : RingInv C cb hist) (hn0 : 0 < n) (hn : n ≤ C) (hout : n ≤ out.length) :
    (cb.copySnapshot C (some out) (n : Int)).2 = some (lastN n hist ++ out.drop n) := by
  have hts := totalSamples_of_le C n hn
  rw [copySnapshot_some C cb out n (by omega) (by rw [hts]; simpa using hout), hts,
    Int.toNat_ofNat]
  have hmap : (List.range' 0 n).map (snapshotSample C cb (n : Int))
      = (List.range' 0 n).map (fun i => (lastN C hist).getD (C - n + i) 0) := by
    apply List.map_congr_left
    intro i hi
    rw [List.mem_range'_1] at hi
    exact snapshotSample_ringInv C cb hist n i h hn (by omega)
  rw [hmap, map_range_getD_drop _ C n (lastN_length C hist h.2.1) hn]
  have hl := lastN_lastN n C hist hn h.2.1
  unfold lastN at hl ⊢
  rw [List.length_drop] at hl
  rw [← hl]
  congr 3
  have := h.2.1
  omega

theorem ringInv_of_wellFormed (C : Nat) (cb : InputCallback) (h : WellFormed C cb) :
    RingInv C cb (cb.mBuffer.rotate cb.mWriteIndex.toNat) := by
  obtain ⟨hlen, h0, hC⟩ := h
  refine ⟨hlen, by simp [hlen], cb.mWriteIndex.toNat, by omega, by omega, ?_⟩
  simp [lastN, hlen]

theorem lastN_append_of_le (n : Nat) (a b : List Int) (h : n ≤ b.length) :
    lastN n (a ++ b) = lastN n b := by
  unfold lastN
  rw [List.length_append, List.drop_append_eq_append_drop]
  have h1 : a.length + b.length - n - a.length = b.length - n := by omega
  have h2 : a.length ≤ a.length + b.length - n := by omega
  rw [h1, List.drop_of_length_le h2, List.nil_append]

/-! ## Bytes of a sample and the serialization loop -/

theorem ldiff_255 (m : Nat) : Nat.ldiff 255 m = 255 - m % 256 := by
  apply Nat.eq_of_testBit_eq
  intro i
  have h1 : (255 : Nat) = 2 ^ 8 - 1 := by norm_num
  have h2 : 255 - m % 256 = 2 ^ 8 - (m % 2 ^ 8 + 1) := by norm_num; omega
  rw [Nat.testBit_ldiff, h2, Nat.testBit_two_pow_sub_succ (Nat.mod_lt _ (by norm_num)), h1,
    Nat.testBit_two_pow_sub_one, Nat.testBit_mod_two_pow]
  by_cases h : i < 8 <;> simp [h]

theorem land_255 (s : Int) : Int.land s 0xFF = s % 256 := by
  cases s with
  | ofNat m =>
      show ((m &&& 255 : Nat) : Int) = (m : Int) % 256
      have := Nat.and_pow_two_sub_one_eq_mod m 8
      norm_num at this
      rw [this]
      norm_cast
  | negSucc m =>
      show ((Nat.ldiff 255 m : Nat) : Int) = Int.negSucc m % 256
      rw [ldiff_255]
      have : m % 256 < 256 := Nat.mod_lt _ (by norm_num)
      rw [Int.negSucc_emod m (by norm_num : (0:Int) < 256)]
      omega

theorem shiftRight_8 (s : Int) : Int.shiftRight s 8 = s / 256 := by
  have := Int.shiftRight_eq_div_pow s 8
  norm_num at this
  exact this

theorem set_set_succ (buf : List Int) (j : Nat) (a b : Int) (h : j + 2 ≤ buf.length) :
    (buf.set j a).set (j + 1) b = buf.take j ++ a :: b :: buf.drop (j + 2) := by
  induction buf generalizing j with
  | nil => simp at h
  | cons x xs ih =>
      cases j with
      | zero =>
          cases xs with
          | nil => simp at h
          | cons y ys => simp
      | succ j =>
          have := ih j (by simp at h; omega)
          simp [this]

theorem serializeLoop_eq (temp : List Int) :
    ∀ (k i : Nat) (buf : List Int), i + k ≤ temp.length → 2 * (i + k) ≤ buf.length →
      serializeLoop temp k i buf =
        buf.take (2 * i) ++ encodeLE ((temp.drop i).take k) ++ buf.drop (2 * (i + k)) := by
  intro k
  induction k with
  | zero => intro i buf _ _; simp [serializeLoop, encodeLE]
  | succ k ih =>
      intro i buf h1 h2
      have hi : i < temp.length := by omega
      rw [serializeLoop]
      rw [ih (i + 1) _ (by omega) (by simp; omega), set_set_succ _ _ _ _ (by omega)]
      have hA : (buf.take (2 * i)).length = 2 * i := by simp [List.length_take]; omega
      have e1 : 2 * (i + 1) = 2 * i + 2 := by ring
      have htake : (buf.take (2 * i) ++ lowByte (temp.getD i 0) :: highByte (temp.getD i 0)
            :: buf.drop (2 * i + 2)).take (2 * (i + 1))
          = buf.take (2 * i) ++ [lowByte (temp.getD i 0), highByte (temp.getD i 0)] := by
        rw [e1, List.take_append_eq_append_take, hA, List.take_take]
        simp
      have hdrop : (buf.take (2 * i) ++ lowByte (temp.getD i 0) :: highByte (temp.getD i 0)
            :: buf.drop (2 * i + 2)).drop (2 * (i + 1 + k))
          = buf.drop (2 * (i + (k + 1))) := by
        rw [List.drop_append_eq_append_drop, hA, List.drop_of_length_le (by rw [hA]; omega)]
        have e2 : 2 * (i + 1 + k) - 2 * i = 2 * k + 2 := by omega
        rw [e2]
        simp only [List.nil_append, List.drop_succ_cons, List.drop_drop]
        congr 1; omega
      rw [htake, hdrop, List.drop_eq_getElem_cons hi, List.take_succ_cons,
        List.getD_eq_getElem _ _ hi]
      simp [encodeLE]

theorem encodeLE_length (l : List Int) : (encodeLE l).length = 2 * l.length := by
  induction l with
  | nil => rfl
  | cons s rest ih => simp [encodeLE, ih]; ring

theorem encodeLE_getD (l : List Int) :
    ∀ i : Nat, i < l.length →
      (encodeLE l).getD (2 * i) 0 = lowByte (l.getD i 0)
      ∧ (encodeLE l).getD (2 * i + 1) 0 = highByte (l.getD i 0) := by
  induction l with
  | nil => intro i h; simp at h
  | cons s rest ih =>
      intro i h
      cases i with
      | zero => simp [encodeLE]
      | succ i =>
          have h1 := ih i (by simpa using h)
          have e1 : 2 * (i + 1) = (2 * i + 1) + 1 := by ring
          rw [e1]
          simp only [encodeLE, List.getD_cons_succ]
          exact h1

theorem copyLoop_length (C : Nat) (buf : List Int) (start : Int) :
    ∀ (k i : Nat) (out : List Int), (copyLoop C buf start k i out).length = out.length := by
  intro k
  induction k with
  | zero => intro i out; rfl
  | succ k ih => intro i out; rw [copyLoop, ih, List.length_set]

theorem copyLoop_mem (C : Nat) (buf : List Int) (start : Int) (P : Int → Prop) (h0 : P 0)
    (hbuf : ∀ x ∈ buf, P x) :
    ∀ (k i : Nat) (out : List Int), (∀ x ∈ out, P x) →
      ∀ x ∈ copyLoop C buf start k i out, P x := by
  intro k
  induction k with
  | zero => intro i out h; simpa [copyLoop] using h
  | succ k ih =>
      intro i out h
      rw [copyLoop]
      apply ih
      intro x hx
      rcases List.mem_or_eq_of_mem_set hx with hx | hx
      · exact h x hx
      · rw [hx]
        by_cases hlt : (readIndex C start i).toNat < buf.length
        · rw [List.getD_eq_getElem _ _ hlt]
          exact hbuf _ (List.getElem_mem _)
        · rw [List.getD_eq_default _ _ (by omega)]
          exact h0

theorem copySnapshot_fst (C : Nat) (cb : InputCallback) (out : Option (List Int))
    (frames : Int) : (cb.copySnapshot C out frames).1 = cb := by
  unfold InputCallback.copySnapshot
  split
  · rfl
  · split <;> rfl

theorem copySnapshot_snd (C : Nat) (cb : InputCallback) (out : List Int) (frames : Int)
    (P : Int → Prop) (h0 : P 0) (hbuf : ∀ x ∈ cb.mBuffer, P x) (hout : ∀ x ∈ out, P x) :
    ∃ res : List Int, (cb.copySnapshot C (some out) frames).2 = some res
      ∧ res.length = out.length ∧ ∀ x ∈ res, P x := by
  unfold InputCallback.copySnapshot
  simp only
  split
  · exact ⟨out, rfl, rfl, hout⟩
  · exact ⟨_, rfl, copyLoop_length C _ _ _ _ _, copyLoop_mem C _ _ P h0 hbuf _ _ _ hout⟩

theorem tdiv_two_natCast (n : Nat) : Int.tdiv (n : Int) 2 = ((n / 2 : Nat) : Int) := by
  rw [Int.tdiv_eq_ediv (Int.ofNat_nonneg n) (by norm_num)]
  rfl

/-- The JNI `copySnapshot` on a pinned array: the snapshot of `L / 2` frames taken into a
zeroed temporary, its little-endian bytes, then the bytes of the array from `2 * (L / 2)` on. -/
theorem jni_copySnapshot_eq (C : Nat) (g : Globals) (bytes : List Int) (P : Int → Prop)
    (h0 : P 0) (hbuf : ∀ x ∈ g.gCallback.mBuffer, P x) :
    ∃ temp : List Int,
      (g.gCallback.copySnapshot C (some (List.replicate (bytes.length / 2) 0))
          ((bytes.length / 2 : Nat) : Int)).2 = some temp
      ∧ temp.length = bytes.length / 2
      ∧ (∀ x ∈ temp, P x)
      ∧ Java_dev_rylry_clip_NativeAudio_copySnapshot C g (some bytes) true
          = (g, some (encodeLE temp ++ bytes.drop (2 * (bytes.length / 2)))) := by
  obtain ⟨temp, ht, hlen, hP⟩ := copySnapshot_snd C g.gCallback
    (List.replicate (bytes.length / 2) 0) ((bytes.length / 2 : Nat) : Int) P h0 hbuf
    (by intro x hx; rw [List.eq_of_mem_replicate hx]; exact h0)
  rw [List.length_replicate] at hlen
  refine ⟨temp, ht, hlen, hP, ?_⟩
  unfold Java_dev_rylry_clip_NativeAudio_copySnapshot
  simp only [Bool.not_true, Bool.false_eq_true, if_false, tdiv_two_natCast, Int.toNat_ofNat,
    copySnapshot_fst, ht, Option.getD_some]
  have hser := serializeLoop_eq temp (bytes.length / 2) 0 bytes (by omega) (by omega)
  rw [hser, List.drop_zero, ← hlen, List.take_length]
  simp

theorem sample_bytes (s : Int) (h : IsInt16 s) :
    byteBits (lowByte s) = s % 256
    ∧ byteBits (highByte s) = (s % 65536) / 256
    ∧ decode16 (lowByte s) (highByte s) = s := by
  unfold IsInt16 at h
  have hlo : byteBits (lowByte s) = s % 256 := by
    unfold byteBits lowByte toJbyte
    rw [land_255]
    omega
  have hhi : byteBits (highByte s) = (s % 65536) / 256 := by
    unfold byteBits highByte toJbyte
    rw [land_255, shiftRight_8]
    omega
  refine ⟨hlo, hhi, ?_⟩
  unfold decode16
  simp only
  rw [hlo, hhi]
  split <;> omega

/-- The stored bytes as values: each is the signed byte (`-128 .. 127`)
with the bit pattern of the low, respectively high, 8 bits. -/
theorem sample_bytes_value (s : Int) :
    (-128 ≤ lowByte s ∧ lowByte s ≤ 127)
    ∧ (-128 ≤ highByte s ∧ highByte s ≤ 127)
    ∧ lowByte s = (if s % 256 < 128 then s % 256 else s % 256 - 256)
    ∧ highByte s
        = (if (s % 65536) / 256 < 128 then (s % 65536) / 256 else (s % 65536) / 256 - 256) := by
  have hl : lowByte s = (s % 256 + 128) % 256 - 128 := by
    unfold lowByte toJbyte
    rw [land_255]
  have hh : highByte s = (s / 256 % 256 + 128) % 256 - 128 := by
    unfold highByte toJbyte
    rw [shiftRight_8, land_255]
  refine ⟨by omega, by omega, ?_, ?_⟩
  · rw [hl]; split <;> omega
  · rw [hh]; split <;> omega

theorem jni_copySnapshot_fst (C : Nat) (g : Globals) (outArray : Option (List Int))
    (pinned : Bool) : (Java_dev_rylry_clip_NativeAudio_copySnapshot C g outArray pinned).1 = g := by
  cases outArray with
  | none => rfl
  | some bytes =>
      cases pinned with
      | false => rfl
      | true =>
          obtain ⟨_, _, _, _, h⟩ :=
            jni_copySnapshot_eq C g bytes (fun _ => True) trivial (fun _ _ => trivial)
          rw [h]

theorem encodeLE_append (a b : List Int) : encodeLE (a ++ b) = encodeLE a ++ encodeLE b := by
  induction a with
  | nil => rfl
  | cons s rest ih => simp [encodeLE, ih]

theorem lowByte_zero : lowByte 0 = 0 := by
  unfold lowByte toJbyte
  rw [land_255]
  rfl

theorem highByte_zero : highByte 0 = 0 := by
  unfold highByte toJbyte
  rw [shiftRight_8, land_255]
  rfl

theorem encodeLE_replicate_zero (k : Nat) :
    encodeLE (List.replicate k 0) = List.replicate (2 * k) 0 := by
  induction k with
  | zero => rfl
  | succ k ih =>
      have e : 2 * (k + 1) = (2 * k + 1) + 1 := by ring
      rw [List.replicate_succ, encodeLE, ih, lowByte_zero, highByte_zero, e,
        List.replicate_succ, List.replicate_succ]

theorem start_of_stream (g : Globals) (r : OboeResult) (opened : Bool)
    (h : g.gStream ≠ none) : Java_dev_rylry_clip_NativeAudio_start g r opened = g := by
  unfold Java_dev_rylry_clip_NativeAudio_start
  split
  · rfl
  · rename_i hs; exact absurd hs h

theorem start_of_failed (g : Globals) (r : OboeResult) (opened : Bool)
    (hs : g.gStream = none) (hc : OpenContract r opened) (hf : OpenFailed r opened) :
    Java_dev_rylry_clip_NativeAudio_start g r opened = g := by
  have hop : opened = false := by
    rcases hf with hr | ho
    · cases opened with
      | false => rfl
      | true => exact absurd (hc.2 rfl) hr
    · exact ho
  subst hop
  unfold Java_dev_rylry_clip_NativeAudio_start
  rw [hs]
  simp only [Bool.false_eq_true, if_false, or_true, if_true]
  cases g
  simp only at hs
  rw [hs]

theorem stop_of_noStream (g : Globals) (hs : g.gStream = none) :
    Java_dev_rylry_clip_NativeAudio_stop g = g := by
  unfold Java_dev_rylry_clip_NativeAudio_stop
  rw [hs]

theorem stop_gStream (g : Globals) : (Java_dev_rylry_clip_NativeAudio_stop g).gStream = none := by
  unfold Java_dev_rylry_clip_NativeAudio_stop
  split
  · assumption
  · rfl

/-! ## Index safety -/

theorem tmod_succ_bounds (C : Nat) (w : Int) (h0 : 0 ≤ w) (hC : 0 < C) :
    0 ≤ (w + 1).tmod (C : Int) ∧ (w + 1).tmod (C : Int) < (C : Int) := by
  rw [Int.tmod_eq_emod (by omega) (Int.ofNat_nonneg C)]
  exact ⟨Int.emod_nonneg _ (by omega), Int.emod_lt_of_pos _ (by omega)⟩

theorem writeLoop_wellFormed (C : Nat) (input : List Int) (hC : 0 < C) :
    ∀ (k i : Nat) (buf : List Int) (w : Int),
      WellFormed C { mBuffer := buf, mWriteIndex := w } →
      WellFormed C { mBuffer := (writeLoop C input k i buf w).1,
                     mWriteIndex := (writeLoop C input k i buf w).2 } := by
  intro k
  induction k with
  | zero => intro i buf w h; simpa [writeLoop] using h
  | succ k ih =>
      intro i buf w h
      obtain ⟨hlen, h0, hlt⟩ := h
      simp only at hlen h0 hlt
      rw [writeLoop]
      apply ih
      have hb := tmod_succ_bounds C w h0 hC
      exact ⟨by simpa using hlen, hb.1, hb.2⟩

theorem writeLoopIdx_eq (C : Nat) (input : List Int) :
    ∀ (k i : Nat) (buf : List Int) (w : Int),
      writeLoopIdx C k w = (List.range k).map (fun j => (writeLoop C input j i buf w).2) := by
  intro k
  induction k with
  | zero => intro i buf w; rfl
  | succ k ih =>
      intro i buf w
      rw [writeLoopIdx, List.range_succ_eq_map, List.map_cons, List.map_map,
        ih (i + 1) (buf.set w.toNat (input.getD i 0)) ((w + 1).tmod (C : Int))]
      rfl

theorem writeLoopIdx_bounds (C : Nat) (hC : 0 < C) :
    ∀ (k : Nat) (w : Int), 0 ≤ w → w < (C : Int) →
      ∀ idx ∈ writeLoopIdx C k w, 0 ≤ idx ∧ idx < (C : Int) := by
  intro k
  induction k with
  | zero => intro w _ _ idx h; simp [writeLoopIdx] at h
  | succ k ih =>
      intro w h0 hlt idx h
      rw [writeLoopIdx, List.mem_cons] at h
      rcases h with h | h
      · rw [h]; exact ⟨h0, hlt⟩
      · have hb := tmod_succ_bounds C w h0 hC
        exact ih _ hb.1 hb.2 idx h

theorem stepCall_wellFormed (C : Nat) (hC : 0 < C) (g : Globals) (c : Call)
    (h : WellFormed C g.gCallback) : WellFormed C (stepCall C g c).gCallback := by
  cases c with
  | onAudioReady now audioData numFrames =>
      cases audioData with
      | none => exact h
      | some input =>
          simp only [stepCall, onAudioReady]
          exact writeLoop_wellFormed C input hC _ _ _ _ h
  | copySnapshot out frames =>
      simp only [stepCall, copySnapshot_fst]
      exact h
  | jniCopySnapshot outArray pinned =>
      simp only [stepCall, jni_copySnapshot_fst]
      exact h
  | start r opened =>
      simp only [stepCall]
      unfold Java_dev_rylry_clip_NativeAudio_start
      split
      · exact h
      · simp only
        split_ifs <;> exact h
  | stop =>
      simp only [stepCall]
      unfold Java_dev_rylry_clip_NativeAudio_stop
      split <;> exact h

theorem runCalls_wellFormed (C : Nat) (hC : 0 < C) :
    ∀ (calls : List Call) (g : Globals), WellFormed C g.gCallback →
      WellFormed C (runCalls C g calls).gCallback := by
  intro calls
  induction calls with
  | nil => intro g h; exact h
  | cons c rest ih =>
      intro g h
      rw [runCalls]
      exact ih _ (stepCall_wellFormed C hC g c h)

theorem wellFormed_new (C : Nat) (hC : 0 < C) : WellFormed C (InputCallback.new C) := by
  refine ⟨by simp [InputCallback.new], le_refl _, ?_⟩
  simp only [InputCallback.new]
  omega

/-! ## The write loop in closed form -/

theorem writeLoop_storeAll (C : Nat) (input : List Int) :
    ∀ (k i w : Nat) (buf : List Int), i + k ≤ input.length →
      writeLoop C input k i buf (((w % C : Nat)) : Int)
        = (storeAll C ((input.drop i).take k) w buf, ((((w + k) % C : Nat)) : Int)) := by
  intro k
  induction k with
  | zero => intro i w buf _; simp [writeLoop, storeAll]
  | succ k ih =>
      intro i w buf h
      have hi : i < input.length := by omega
      have hc : (w % C + 1) % C = (w + 1) % C := Nat.mod_add_mod w C 1
      rw [writeLoop, tmod_succ_cursor, Int.toNat_ofNat, hc, ih (i + 1) (w + 1) _ (by omega),
        List.drop_eq_getElem_cons hi, List.take_succ_cons, storeAll,
        List.getD_eq_getElem _ _ hi]
      congr 3
      omega

theorem mod_add_ne (C w d : Nat) (hd0 : 0 < d) (hd : d < C) : (w + d) % C ≠ w % C := by
  intro h
  have h1 : (w + d) % C = (w + 0) % C := by simpa using h
  have h2 : d % C = 0 % C := Nat.ModEq.add_left_cancel' w h1
  rw [Nat.mod_eq_of_lt hd, Nat.zero_mod] at h2
  omega

theorem storeAll_length (C : Nat) :
    ∀ (xs : List Int) (w : Nat) (buf : List Int), (storeAll C xs w buf).length = buf.length := by
  intro xs
  induction xs with
  | nil => intro w buf; rfl
  | cons x rest ih => intro w buf; rw [storeAll, ih, List.length_set]

theorem storeAll_getD_other (C : Nat) (p : Nat) :
    ∀ (xs : List Int) (w : Nat) (buf : List Int),
      (∀ j : Nat, j < xs.length → (w + j) % C ≠ p) →
      (storeAll C xs w buf).getD p 0 = buf.getD p 0 := by
  intro xs
  induction xs with
  | nil => intro w buf _; rfl
  | cons x rest ih =>
      intro w buf h
      rw [storeAll, ih (w + 1) _ (fun j hj => by
        have := h (j + 1) (by simpa using hj)
        rwa [show w + 1 + j = w + (j + 1) by omega])]
      have h0 : w % C ≠ p := by simpa using h 0 (by simp)
      simp only [List.getD_eq_getElem?_getD]
      rw [List.getElem?_set_ne h0]

theorem storeAll_getD (C : Nat) :
    ∀ (xs : List Int) (w i : Nat) (buf : List Int), buf.length = C →
      i < xs.length → xs.length ≤ i + C →
      (storeAll C xs w buf).getD ((w + i) % C) 0 = xs.getD i 0 := by
  intro xs
  induction xs with
  | nil => intro w i buf _ hi; simp at hi
  | cons x rest ih =>
      intro w i buf hlen hi hk
      have hC : 0 < C := by
        simp only [List.length_cons] at hi hk; omega
      cases i with
      | zero =>
          rw [storeAll, storeAll_getD_other C ((w + 0) % C) rest (w + 1) _ (fun j hj => by
            have hj2 : j + 1 < C := by simp only [List.length_cons] at hk; omega
            have := mod_add_ne C w (j + 1) (by omega) hj2
            rwa [show w + 1 + j = w + (j + 1) by omega])]
          simp only [Nat.add_zero, List.getD_eq_getElem?_getD]
          rw [List.getElem?_set_self (by rw [hlen]; exact Nat.mod_lt _ hC)]
          simp
      | succ i =>
          have := ih (w + 1) i (buf.set (w % C) x) (by simpa using hlen)
            (by simpa using hi) (by simp only [List.length_cons] at hk; omega)
          rw [storeAll, show w + (i + 1) = w + 1 + i by omega, this]
          rfl

/-! ## Splitting the write loop -/

theorem writeLoop_split (C : Nat) (input : List Int) :
    ∀ (k1 k2 i : Nat) (buf : List Int) (w : Int),
      writeLoop C input (k1 + k2) i buf w
        = writeLoop C input k2 (i + k1) (writeLoop C input k1 i buf w).1
            (writeLoop C input k1 i buf w).2 := by
  intro k1
  induction k1 with
  | zero => intro k2 i buf w; simp [writeLoop]
  | succ k1 ih =>
      intro k2 i buf w
      rw [show k1 + 1 + k2 = (k1 + k2) + 1 by omega, writeLoop, ih, writeLoop,
        show i + 1 + k1 = i + (k1 + 1) by omega]

theorem writeLoop_append_left (C : Nat) (a b : List Int) :
    ∀ (k i : Nat) (buf : List Int) (w : Int), i + k ≤ a.length →
      writeLoop C (a ++ b) k i buf w = writeLoop C a k i buf w := by
  intro k
  induction k with
  | zero => intro i buf w _; rfl
  | succ k ih =>
      intro i buf w h
      rw [writeLoop, writeLoop, ih (i + 1) _ _ (by omega), List.getD_append _ _ _ _ (by omega)]

theorem writeLoop_append_right (C : Nat) (a b : List Int) :
    ∀ (k i : Nat) (buf : List Int) (w : Int),
      writeLoop C (a ++ b) k (a.length + i) buf w = writeLoop C b k i buf w := by
  intro k
  induction k with
  | zero => intro i buf w; rfl
  | succ k ih =>
      intro i buf w
      rw [writeLoop, writeLoop, show a.length + i + 1 = a.length + (i + 1) by omega, ih,
        List.getD_append_right _ _ _ _ (by omega), Nat.add_sub_cancel_left]

/-! ## Claims -/

/-- C1: on a freshly constructed callback object of capacity `C > 0`, after any sequence of
deliveries, `copySnapshot(out, n)` with `0 < n ≤ C` fills `out[0..n-1]` with the last `n`
elements of `C` zeros followed by all written samples in write order (the rest of `out` is
kept). -/
theorem C1_snapshot_is_history_suffix (C : Nat) (hC : 0 < C) (g : Globals)
    (hg : g.gCallback = InputCallback.new C) (ds : List (Int × List Int)) (out : List Int)
    (n : Nat) (hn0 : 0 < n) (hn : n ≤ C) (hout : n ≤ out.length) :
    ((deliverAll C g ds).gCallback.copySnapshot C (some out) (n : Int)).2
      = some (lastN n (List.replicate C 0 ++ written ds) ++ out.drop n) := by
  have hinv : RingInv C g.gCallback (List.replicate C 0) := by
    rw [hg]; exact ringInv_new C hC
  exact copySnapshot_ringInv C _ _ out n (ringInv_deliverAll C ds g _ hinv) hn0 hn hout

/-- C1 (witness): capacity 10, write `[1..5]`, snapshot(10); then write `[6..12]`,
snapshot(10). -/
theorem C1_snapshot_is_history_suffix_witness :
    ((deliverAll 10 (Globals.init 10) [(0, [1, 2, 3, 4, 5])]).gCallback.copySnapshot 10
        (some [9, 9, 9, 9, 9, 9, 9, 9, 9, 9]) ((10 : Nat) : Int)).2
      = some [0, 0, 0, 0, 0, 1, 2, 3, 4, 5]
    ∧ ((deliverAll 10 (Globals.init 10)
          [(0, [1, 2, 3, 4, 5]), (1, [6, 7, 8, 9, 10, 11, 12])]).gCallback.copySnapshot 10
        (some [9, 9, 9, 9, 9, 9, 9, 9, 9, 9]) ((10 : Nat) : Int)).2
      = some [3, 4, 5, 6, 7, 8, 9, 10, 11, 12] :=
  ⟨(C1_snapshot_is_history_suffix 10 (by decide) (Globals.init 10) rfl
      [(0, [1, 2, 3, 4, 5])] [9, 9, 9, 9, 9, 9, 9, 9, 9, 9] 10
      (by decide) (by decide) (by decide)).trans (by decide),
   (C1_snapshot_is_history_suffix 10 (by decide) (Globals.init 10) rfl
      [(0, [1, 2, 3, 4, 5]), (1, [6, 7, 8, 9, 10, 11, 12])] [9, 9, 9, 9, 9, 9, 9, 9, 9, 9] 10
      (by decide) (by decide) (by decide)).trans (by decide)⟩

/-- C2: no overflow.  On a fresh callback object, after deliveries whose total sample count `T`
satisfies `0 < T ≤ C`, `copySnapshot(out, T)` puts exactly the written samples, in write order,
into `out[0..T-1]`. -/
theorem C2_no_overflow (C : Nat) (g : Globals)
    (hg : g.gCallback = InputCallback.new C) (ds : List (Int × List Int)) (out : List Int)
    (hT0 : 0 < (written ds).length) (hT : (written ds).length ≤ C)
    (hout : (written ds).length ≤ out.length) :
    ((deliverAll C g ds).gCallback.copySnapshot C (some out) ((written ds).length : Int)).2
      = some (written ds ++ out.drop (written ds).length) := by
  have hinv : RingInv C g.gCallback (List.replicate C 0) := by
    rw [hg]; exact ringInv_new C (by omega)
  rw [copySnapshot_ringInv C _ _ out _ (ringInv_deliverAll C ds g _ hinv) hT0 hT hout,
    lastN_append_of_le _ _ _ (le_refl _)]
  simp [lastN]

/-- C2 (witness): capacity 4, deliveries `[5]` and `[6, 7]`, snapshot(3). -/
theorem C2_no_overflow_witness :
    ((deliverAll 4 (Globals.init 4) [(0, [5]), (1, [6, 7])]).gCallback.copySnapshot 4
        (some [9, 9, 9, 9]) ((written [(0, [5]), (1, [6, 7])]).length : Int)).2
      = some [5, 6, 7, 9] :=
  (C2_no_overflow 4 (Globals.init 4) rfl [(0, [5]), (1, [6, 7])] [9, 9, 9, 9]
    (by decide) (by decide) (by decide)).trans (by decide)

/-- C3: overwrite correctness.  From any well-formed callback object (in particular a fresh
one), after deliveries whose total sample count exceeds `C` (a single delivery longer than `C`
included), `copySnapshot(out, C)` puts exactly the last `C` written samples, oldest first, into
`out[0..C-1]`. -/
theorem C3_overwrite_correctness (C : Nat) (hC : 0 < C) (g : Globals)
    (hg : WellFormed C g.gCallback) (ds : List (Int × List Int)) (out : List Int)
    (hT : C < (written ds).length) (hout : C ≤ out.length) :
    ((deliverAll C g ds).gCallback.copySnapshot C (some out) (C : Int)).2
      = some (lastN C (written ds) ++ out.drop C) := by
  have hinv := ringInv_of_wellFormed C g.gCallback hg
  rw [copySnapshot_ringInv C _ _ out C (ringInv_deliverAll C ds g _ hinv) hC (le_refl _) hout,
    lastN_append_of_le _ _ _ (by omega)]

/-- C3 (witness): capacity 3, one delivery of five samples, and two deliveries totalling
four. -/
theorem C3_overwrite_correctness_witness :
    ((deliverAll 3 (Globals.init 3) [(0, [1, 2, 3, 4, 5])]).gCallback.copySnapshot 3
        (some [9, 9, 9, 9]) ((3 : Nat) : Int)).2 = some [3, 4, 5, 9]
    ∧ ((deliverAll 3 (Globals.init 3) [(0, [1, 2]), (1, [3, 4])]).gCallback.copySnapshot 3
        (some [9, 9, 9]) ((3 : Nat) : Int)).2 = some [2, 3, 4] :=
  ⟨(C3_overwrite_correctness 3 (by decide) (Globals.init 3) (by decide)
      [(0, [1, 2, 3, 4, 5])] [9, 9, 9, 9] (by decide) (by decide)).trans (by decide),
   (C3_overwrite_correctness 3 (by decide) (Globals.init 3) (by decide)
      [(0, [1, 2]), (1, [3, 4])] [9, 9, 9] (by decide) (by decide)).trans (by decide)⟩

/-- C4: clamping.  For `frames > 0` and every state of the callback object, `copySnapshot(out,
frames)` assigns exactly the `n = min(frames * CHANNELS, C)` positions `out[0..n-1]` (with the
store samples read from `start` on), keeps every position of `out` from `n` on and the length
of `out`, and never assigns the object; when `frames * CHANNELS > C` the call gives exactly what
`copySnapshot(out, C)` gives. -/
theorem C4_clamping (C : Nat) (cb : InputCallback) (out : List Int) (frames : Int)
    (hf : 0 < frames) (hout : (min (frames * (CHANNELS : Int)) (C : Int)).toNat ≤ out.length) :
    ∃ res : List Int,
      cb.copySnapshot C (some out) frames = (cb, some res)
      ∧ res.length = out.length
      ∧ res.take (min (frames * (CHANNELS : Int)) (C : Int)).toNat
          = (List.range' 0 (min (frames * (CHANNELS : Int)) (C : Int)).toNat).map
              (snapshotSample C cb (min (frames * (CHANNELS : Int)) (C : Int)))
      ∧ res.drop (min (frames * (CHANNELS : Int)) (C : Int)).toNat
          = out.drop (min (frames * (CHANNELS : Int)) (C : Int)).toNat
      ∧ ((C : Int) < frames * (CHANNELS : Int) →
          cb.copySnapshot C (some out) frames = cb.copySnapshot C (some out) (C : Int)) := by
  have hts : totalSamples C frames = min (frames * (CHANNELS : Int)) (C : Int) := rfl
  rw [← hts] at hout ⊢
  have h2 := copySnapshot_some C cb out frames hf hout
  have h1 : (cb.copySnapshot C (some out) frames).1 = cb := by
    unfold InputCallback.copySnapshot
    simp only
    split <;> rfl
  have hlenmap : ((List.range' 0 (totalSamples C frames).toNat).map
      (snapshotSample C cb (totalSamples C frames))).length = (totalSamples C frames).toNat := by
    simp
  refine ⟨_, Prod.ext h1 h2, ?_, ?_, ?_, ?_⟩
  · simp only [List.length_append, List.length_map, List.length_range', List.length_drop]
    omega
  · rw [List.take_left' hlenmap]
  · rw [List.drop_left' hlenmap]
  · intro hgt
    have hC0 : frames * (CHANNELS : Int) = frames := by simp [CHANNELS]
    rw [hC0] at hgt
    have ht1 : totalSamples C frames = (C : Int) := by
      unfold totalSamples; rw [hC0]; omega
    rcases Nat.eq_zero_or_pos C with h0 | hpos
    · subst h0
      unfold InputCallback.copySnapshot
      simp only
      rw [if_neg (by omega), if_pos (by simp)]
      simp [ht1, copyLoop]
    · have ht2 : totalSamples C (C : Int) = (C : Int) := totalSamples_of_le C C (le_refl _)
      unfold InputCallback.copySnapshot
      simp only
      rw [if_neg (by omega), if_neg (by omega), ht1, ht2]

/-- C4 (witness): capacity 3, store `[1, 2, 3]` with cursor 1, `frames = 5`, five output
slots. -/
theorem C4_clamping_witness :
    ∃ res : List Int,
      InputCallback.copySnapshot 3 { mBuffer := [1, 2, 3], mWriteIndex := 1 }
          (some [9, 9, 9, 9, 9]) 5
        = ({ mBuffer := [1, 2, 3], mWriteIndex := 1 }, some res)
      ∧ res.length = 5
      ∧ res.take 3 = [2, 3, 1]
      ∧ res.drop 3 = [9, 9]
      ∧ InputCallback.copySnapshot 3 { mBuffer := [1, 2, 3], mWriteIndex := 1 }
          (some [9, 9, 9, 9, 9]) 5
        = InputCallback.copySnapshot 3 { mBuffer := [1, 2, 3], mWriteIndex := 1 }
          (some [9, 9, 9, 9, 9]) 3 := by
  obtain ⟨res, h1, h2, h3, h4, h5⟩ :=
    C4_clamping 3 { mBuffer := [1, 2, 3], mWriteIndex := 1 } [9, 9, 9, 9, 9] 5
      (by decide) (by decide)
  exact ⟨res, h1, h2, h3.trans (by decide), h4.trans (by decide), h5 (by decide)⟩

/-- C5: `isRecordingActive` evaluated at clock value `now` returns true exactly when
`gRecordingActive` is true and `now - gLastCallbackNs < 2000000000`; it is false when the
elapsed time equals the timeout, and false at every clock value when the flag is false. -/
theorem C5_isRecordingActive_iff (g : Globals) (now : Int) :
    ((Java_dev_rylry_clip_NativeAudio_isRecordingActive g now).2 = true
        ↔ (g.gRecordingActive = true ∧ now - g.gLastCallbackNs < 2000000000))
    ∧ (now - g.gLastCallbackNs = 2000000000 →
        (Java_dev_rylry_clip_NativeAudio_isRecordingActive g now).2 = false)
    ∧ (g.gRecordingActive = false →
        ∀ t : Int, (Java_dev_rylry_clip_NativeAudio_isRecordingActive g t).2 = false) := by
  unfold Java_dev_rylry_clip_NativeAudio_isRecordingActive TIMEOUT_NS
  refine ⟨?_, ?_, ?_⟩
  · cases h : g.gRecordingActive <;> simp
  · intro h
    cases hr : g.gRecordingActive <;> simp [h]
  · intro h t
    simp [h]

/-- C5 (witness): flag true and last callback at 1000; the clock is exactly one timeout
later. -/
theorem C5_isRecordingActive_iff_witness :
    (Java_dev_rylry_clip_NativeAudio_isRecordingActive
        { gStream := some { started := true }, gRecordingActive := true,
          gLastCallbackNs := 1000, gCallback := InputCallback.new 2 } 2000001000).2 = false
    ∧ (Java_dev_rylry_clip_NativeAudio_isRecordingActive
        { gStream := none, gRecordingActive := false,
          gLastCallbackNs := 1000, gCallback := InputCallback.new 2 } 1001).2 = false :=
  ⟨(C5_isRecordingActive_iff
      { gStream := some { started := true }, gRecordingActive := true,
        gLastCallbackNs := 1000, gCallback := InputCallback.new 2 } 2000001000).2.1 (by decide),
   (C5_isRecordingActive_iff
      { gStream := none, gRecordingActive := false,
        gLastCallbackNs := 1000, gCallback := InputCallback.new 2 } 0).2.2 rfl 1001⟩

theorem start_gRecordingActive (g : Globals) (r : OboeResult) (opened : Bool) :
    (Java_dev_rylry_clip_NativeAudio_start g r opened).gRecordingActive = g.gRecordingActive := by
  unfold Java_dev_rylry_clip_NativeAudio_start
  split
  · rfl
  · simp only
    split_ifs <;> rfl

theorem start_gStream_none (g : Globals) (r : OboeResult) (opened : Bool)
    (h : (Java_dev_rylry_clip_NativeAudio_start g r opened).gStream = none) :
    g.gStream = none := by
  unfold Java_dev_rylry_clip_NativeAudio_start at h
  split at h
  · rename_i st hst
    rw [hst] at h
    exact absurd h (by simp)
  · assumption

theorem onAudioReady_gStream (C : Nat) (g : Globals) (now : Int)
    (audioData : Option (List Int)) (numFrames : Int) :
    (onAudioReady C g now audioData numFrames).1.gStream = g.gStream := by
  unfold onAudioReady
  split <;> rfl

theorem stop_gRecordingActive (g : Globals) (h : g.gStream = none → g.gRecordingActive = false) :
    (Java_dev_rylry_clip_NativeAudio_stop g).gRecordingActive = false := by
  unfold Java_dev_rylry_clip_NativeAudio_stop
  split
  · rename_i hs; exact h hs
  · rfl

/-- In every state a trace reaches from a state with the property, a state without a stream
has the running flag off. -/
theorem runTrace_noStream_notActive (C : Nat) :
    ∀ (tr : List Event) (g g1 : Globals),
      (g.gStream = none → g.gRecordingActive = false) →
      runTrace C g tr = some g1 → (g1.gStream = none → g1.gRecordingActive = false) := by
  intro tr
  induction tr with
  | nil =>
      intro g g1 hg hrun
      simp only [runTrace, Option.some.injEq] at hrun
      subst hrun
      exact hg
  | cons e rest ih =>
      intro g g1 hg hrun
      rw [runTrace] at hrun
      split at hrun
      · rename_i hen
        refine ih (step C g e) g1 ?_ hrun
        cases e with
        | start r opened =>
            intro hs
            simp only [step] at hs ⊢
            rw [start_gRecordingActive]
            exact hg (start_gStream_none g r opened hs)
        | callback now audioData numFrames =>
            intro hs
            simp only [step] at hs
            rw [onAudioReady_gStream] at hs
            simp [enabled, hs] at hen
        | stop =>
            intro _
            simp only [step]
            exact stop_gRecordingActive g hg
      · exact absurd hrun (by simp)

/-- C6: liveness transitions.  Over every sequential trace of start / delivery callback / stop
from the initial state: `isRecordingActive` is false at every clock value in the initial state,
in every reachable state without a stream, and right after `stop()`; and after a delivery
callback stamped at time `t` by an open stream, `isRecordingActive` at `now` is true when
`0 ≤ now - t < 2000000000` and false when `now - t ≥ 2000000000`. -/
theorem C6_liveness_transitions (C : Nat) (tr : List Event) (g : Globals)
    (hrun : runTrace C (Globals.init C) tr = some g) (now : Int) :
    (Java_dev_rylry_clip_NativeAudio_isRecordingActive (Globals.init C) now).2 = false
    ∧ (g.gStream = none →
        (Java_dev_rylry_clip_NativeAudio_isRecordingActive g now).2 = false)
    ∧ (Java_dev_rylry_clip_NativeAudio_isRecordingActive
        (Java_dev_rylry_clip_NativeAudio_stop g) now).2 = false
    ∧ (∀ (t : Int) (input : List Int) (numFrames : Int), g.gStream ≠ none →
        (0 ≤ now - t ∧ now - t < 2000000000 →
          (Java_dev_rylry_clip_NativeAudio_isRecordingActive
            (step C g (Event.callback t (some input) numFrames)) now).2 = true)
        ∧ (2000000000 ≤ now - t →
          (Java_dev_rylry_clip_NativeAudio_isRecordingActive
            (step C g (Event.callback t (some input) numFrames)) now).2 = false)) := by
  have hinv := runTrace_noStream_notActive C tr (Globals.init C) g (fun _ => rfl) hrun
  refine ⟨?_, ?_, ?_, ?_⟩
  · simp [Java_dev_rylry_clip_NativeAudio_isRecordingActive, Globals.init]
  · intro hs
    simp [Java_dev_rylry_clip_NativeAudio_isRecordingActive, hinv hs]
  · simp [Java_dev_rylry_clip_NativeAudio_isRecordingActive, stop_gRecordingActive g hinv]
  · intro t input numFrames _
    constructor
    · intro h
      simp [Java_dev_rylry_clip_NativeAudio_isRecordingActive, step, onAudioReady, TIMEOUT_NS,
        h.2]
    · intro h
      simp [Java_dev_rylry_clip_NativeAudio_isRecordingActive, step, onAudioReady, TIMEOUT_NS]
      omega

/-- C6 (witness): after a successful `start()`, a callback stamped at 100 makes the watchdog
true at clock 500 and false at clock 2000000100; after `start()`, a callback and `stop()` no
stream is held and the watchdog is false. -/
theorem C6_liveness_transitions_witness :
    ((Java_dev_rylry_clip_NativeAudio_isRecordingActive
        (step 2 { gStream := some { started := true }, gRecordingActive := false,
                  gLastCallbackNs := 0, gCallback := InputCallback.new 2 }
          (Event.callback 100 (some [7]) 1)) 500).2 = true)
    ∧ ((Java_dev_rylry_clip_NativeAudio_isRecordingActive
        (step 2 { gStream := some { started := true }, gRecordingActive := false,
                  gLastCallbackNs := 0, gCallback := InputCallback.new 2 }
          (Event.callback 100 (some [7]) 1)) 2000000100).2 = false)
    ∧ ((Java_dev_rylry_clip_NativeAudio_isRecordingActive
        { gStream := none, gRecordingActive := false, gLastCallbackNs := 100,
          gCallback := { mBuffer := [7, 0], mWriteIndex := 1 } } 500).2 = false) :=
  ⟨((C6_liveness_transitions 2 [Event.start OboeResult.OK true]
        { gStream := some { started := true }, gRecordingActive := false,
          gLastCallbackNs := 0, gCallback := InputCallback.new 2 }
        (by decide) 500).2.2.2 100 [7] 1 (by decide)).1 (by decide),
   ((C6_liveness_transitions 2 [Event.start OboeResult.OK true]
        { gStream := some { started := true }, gRecordingActive := false,
          gLastCallbackNs := 0, gCallback := InputCallback.new 2 }
        (by decide) 2000000100).2.2.2 100 [7] 1 (by decide)).2 (by decide),
   (C6_liveness_transitions 2
        [Event.start OboeResult.OK true, Event.callback 100 (some [7]) 1, Event.stop]
        { gStream := none, gRecordingActive := false, gLastCallbackNs := 100,
          gCallback := { mBuffer := [7, 0], mWriteIndex := 1 } }
        (by decide) 500).2.1 rfl⟩

/-- C7: little-endian serialization.  For every sample position `i` the JNI `copySnapshot`
serializes (the store holding 16-bit samples), the sample `s` is a 16-bit value, destination
byte `2i` is the signed byte (in `-128 .. 127`) whose 8 bits are the least-significant 8 bits of
`s`, byte `2i+1` is the signed byte whose 8 bits are the most-significant 8 bits of `s`, and
decoding the pair (`lo + 256 * hi` on the unsigned bytes, reinterpreted as 16-bit twos
complement) gives back `s`, negative samples included. -/
theorem C7_little_endian (C : Nat) (g : Globals) (bytes : List Int) (i : Nat)
    (hstore : ∀ x ∈ g.gCallback.mBuffer, IsInt16 x) (hi : i < bytes.length / 2) :
    ∃ temp res : List Int,
      (g.gCallback.copySnapshot C (some (List.replicate (bytes.length / 2) 0))
          ((bytes.length / 2 : Nat) : Int)).2 = some temp
      ∧ (Java_dev_rylry_clip_NativeAudio_copySnapshot C g (some bytes) true).2 = some res
      ∧ IsInt16 (temp.getD i 0)
      ∧ byteBits (res.getD (2 * i) 0) = temp.getD i 0 % 256
      ∧ byteBits (res.getD (2 * i + 1) 0) = (temp.getD i 0 % 65536) / 256
      ∧ decode16 (res.getD (2 * i) 0) (res.getD (2 * i + 1) 0) = temp.getD i 0
      ∧ (-128 ≤ res.getD (2 * i) 0 ∧ res.getD (2 * i) 0 ≤ 127)
      ∧ (-128 ≤ res.getD (2 * i + 1) 0 ∧ res.getD (2 * i + 1) 0 ≤ 127)
      ∧ res.getD (2 * i) 0
          = (if temp.getD i 0 % 256 < 128 then temp.getD i 0 % 256
             else temp.getD i 0 % 256 - 256)
      ∧ res.getD (2 * i + 1) 0
          = (if (temp.getD i 0 % 65536) / 256 < 128 then (temp.getD i 0 % 65536) / 256
             else (temp.getD i 0 % 65536) / 256 - 256) := by
  have h0 : IsInt16 0 := by unfold IsInt16; omega
  obtain ⟨temp, ht, hlen, hP, hjni⟩ := jni_copySnapshot_eq C g bytes IsInt16 h0 hstore
  have hit : i < temp.length := by omega
  have hs : IsInt16 (temp.getD i 0) := by
    rw [List.getD_eq_getElem _ _ hit]
    exact hP _ (List.getElem_mem _)
  obtain ⟨hlo, hhi⟩ := encodeLE_getD temp i hit
  have hel := encodeLE_length temp
  have hb := sample_bytes (temp.getD i 0) hs
  have hv := sample_bytes_value (temp.getD i 0)
  have e0 : (encodeLE temp ++ bytes.drop (2 * (bytes.length / 2))).getD (2 * i) 0
      = lowByte (temp.getD i 0) := by
    rw [List.getD_append _ _ _ _ (by omega), hlo]
  have e1 : (encodeLE temp ++ bytes.drop (2 * (bytes.length / 2))).getD (2 * i + 1) 0
      = highByte (temp.getD i 0) := by
    rw [List.getD_append _ _ _ _ (by omega), hhi]
  refine ⟨temp, _, ht, by rw [hjni], hs, ?_, ?_, ?_, ?_, ?_, ?_, ?_⟩
  · rw [e0]; exact hb.1
  · rw [e1]; exact hb.2.1
  · rw [e0, e1]; exact hb.2.2
  · rw [e0]; exact hv.1
  · rw [e1]; exact hv.2.1
  · rw [e0]; exact hv.2.2.1
  · rw [e1]; exact hv.2.2.2

/-- C7 (witness): store `[-2, 300]` with cursor 0 and a five-byte destination.  The negative
sample `-2` at position 0 is stored as the bytes `-2, -1` (bit patterns `FE FF`), the sample
`300` at position 1 as `44, 1`, and both pairs decode to the sample. -/
theorem C7_little_endian_witness :
    (∀ x ∈ [(-2 : Int), 300], IsInt16 x) ∧ 1 < [(0 : Int), 0, 0, 0, 0].length / 2
    ∧ ∃ res : List Int,
      (Java_dev_rylry_clip_NativeAudio_copySnapshot 2
          { gStream := none, gRecordingActive := false, gLastCallbackNs := 0,
            gCallback := { mBuffer := [-2, 300], mWriteIndex := 0 } }
          (some [0, 0, 0, 0, 0]) true).2 = some res
      ∧ res.getD 0 0 = -2 ∧ res.getD 1 0 = -1
      ∧ res.getD 2 0 = 44 ∧ res.getD 3 0 = 1
      ∧ decode16 (res.getD 0 0) (res.getD 1 0) = -2
      ∧ decode16 (res.getD 2 0) (res.getD 3 0) = 300 := by
  have hstore : ∀ x ∈ [(-2 : Int), 300], IsInt16 x := by
    intro x hx
    simp only [List.mem_cons, List.mem_singleton, List.not_mem_nil, or_false] at hx
    rcases hx with rfl | rfl <;> (unfold IsInt16; omega)
  refine ⟨hstore, by decide, ?_⟩
  obtain ⟨temp, res, ht, hres, _, _, _, hdec, _, _, hlo, hhi⟩ :=
    C7_little_endian 2
      { gStream := none, gRecordingActive := false, gLastCallbackNs := 0,
        gCallback := { mBuffer := [-2, 300], mWriteIndex := 0 } }
      [0, 0, 0, 0, 0] 0 hstore (by decide)
  obtain ⟨temp1, res1, ht1, hres1, _, _, _, hdec1, _, _, hlo1, hhi1⟩ :=
    C7_little_endian 2
      { gStream := none, gRecordingActive := false, gLastCallbackNs := 0,
        gCallback := { mBuffer := [-2, 300], mWriteIndex := 0 } }
      [0, 0, 0, 0, 0] 1 hstore (by decide)
  have hsame : res1 = res := Option.some.inj (hres1.symm.trans hres)
  have htemp : temp = [-2, 300] := Option.some.inj (ht.symm.trans (by decide))
  have htemp1 : temp1 = [-2, 300] := Option.some.inj (ht1.symm.trans (by decide))
  subst hsame htemp htemp1
  refine ⟨res1, hres, hlo.trans (by decide), hhi.trans (by decide), hlo1.trans (by decide),
    hhi1.trans (by decide), hdec.trans (by decide), hdec1.trans (by decide)⟩

/-- C8: truncation.  On a destination of odd length `L` the JNI `copySnapshot` takes a snapshot
of exactly `L / 2` samples, assigns only the byte positions below `2 * (L / 2)` (with the
little-endian bytes of those samples), keeps the length and the final byte (index `L - 1`);
for `L = 1` and `L = 0` the destination and the globals are unchanged. -/
theorem C8_truncation (C : Nat) (g : Globals) (bytes : List Int) :
    (bytes.length % 2 = 1 →
      ∃ temp res : List Int,
        (g.gCallback.copySnapshot C (some (List.replicate (bytes.length / 2) 0))
            ((bytes.length / 2 : Nat) : Int)).2 = some temp
        ∧ temp.length = bytes.length / 2
        ∧ Java_dev_rylry_clip_NativeAudio_copySnapshot C g (some bytes) true = (g, some res)
        ∧ res.length = bytes.length
        ∧ res.take (2 * (bytes.length / 2)) = encodeLE temp
        ∧ res.drop (2 * (bytes.length / 2)) = bytes.drop (2 * (bytes.length / 2))
        ∧ res[bytes.length - 1]? = bytes[bytes.length - 1]?)
    ∧ (bytes.length ≤ 1 → ∀ pinned : Bool,
        Java_dev_rylry_clip_NativeAudio_copySnapshot C g (some bytes) pinned
          = (g, some bytes)) := by
  obtain ⟨temp, ht, hlen, _, hjni⟩ :=
    jni_copySnapshot_eq C g bytes (fun _ => True) trivial (fun _ _ => trivial)
  have hel : (encodeLE temp).length = 2 * (bytes.length / 2) := by
    rw [encodeLE_length, hlen]
  constructor
  · intro hodd
    refine ⟨temp, _, ht, hlen, hjni, ?_, ?_, ?_, ?_⟩
    · rw [List.length_append, hel, List.length_drop]; omega
    · rw [List.take_left' hel]
    · rw [List.drop_left' hel]
    · rw [List.getElem?_append_right (by omega), hel, List.getElem?_drop]
      congr 1
      omega
  · intro hle pinned
    cases pinned with
    | false => rfl
    | true =>
        have h2 : bytes.length / 2 = 0 := by omega
        have htemp : temp = [] := List.eq_nil_of_length_eq_zero (by omega)
        rw [hjni, htemp, h2]
        rfl

/-- C8 (witness): a five-byte destination over the store `[-2, 300]`, and a one-byte
destination. -/
theorem C8_truncation_witness :
    (∃ temp res : List Int,
        (InputCallback.copySnapshot 2 { mBuffer := [-2, 300], mWriteIndex := 0 }
            (some (List.replicate ([(7 : Int), 7, 7, 7, 7].length / 2) 0))
            (([(7 : Int), 7, 7, 7, 7].length / 2 : Nat) : Int)).2 = some temp
        ∧ temp.length = [(7 : Int), 7, 7, 7, 7].length / 2
        ∧ Java_dev_rylry_clip_NativeAudio_copySnapshot 2
            { gStream := none, gRecordingActive := false, gLastCallbackNs := 0,
              gCallback := { mBuffer := [-2, 300], mWriteIndex := 0 } }
            (some [7, 7, 7, 7, 7]) true
          = ({ gStream := none, gRecordingActive := false, gLastCallbackNs := 0,
               gCallback := { mBuffer := [-2, 300], mWriteIndex := 0 } }, some res)
        ∧ res.length = [(7 : Int), 7, 7, 7, 7].length
        ∧ res.take (2 * ([(7 : Int), 7, 7, 7, 7].length / 2)) = encodeLE temp
        ∧ res.drop (2 * ([(7 : Int), 7, 7, 7, 7].length / 2))
            = [(7 : Int), 7, 7, 7, 7].drop (2 * ([(7 : Int), 7, 7, 7, 7].length / 2))
        ∧ res[[(7 : Int), 7, 7, 7, 7].length - 1]?
            = [(7 : Int), 7, 7, 7, 7][[(7 : Int), 7, 7, 7, 7].length - 1]?)
    ∧ Java_dev_rylry_clip_NativeAudio_copySnapshot 2
          { gStream := none, gRecordingActive := false, gLastCallbackNs := 0,
            gCallback := { mBuffer := [-2, 300], mWriteIndex := 0 } }
          (some [7]) true
        = ({ gStream := none, gRecordingActive := false, gLastCallbackNs := 0,
             gCallback := { mBuffer := [-2, 300], mWriteIndex := 0 } }, some [7]) :=
  ⟨(C8_truncation 2
      { gStream := none, gRecordingActive := false, gLastCallbackNs := 0,
        gCallback := { mBuffer := [-2, 300], mWriteIndex := 0 } }
      [7, 7, 7, 7, 7]).1 (by decide),
   (C8_truncation 2
      { gStream := none, gRecordingActive := false, gLastCallbackNs := 0,
        gCallback := { mBuffer := [-2, 300], mWriteIndex := 0 } }
      [7]).2 (by decide) true⟩

/-- C9: post-stop persistence.  For every state, `stop()` leaves the callback object (sample
store and write cursor) unchanged, so `copySnapshot(out, n)` and the JNI `copySnapshot` issued
after `stop()` give exactly the samples and bytes the same call gives just before `stop()`. -/
theorem C9_post_stop_persistence (C : Nat) (g : Globals) (out : Option (List Int)) (n : Int)
    (outArray : Option (List Int)) (pinned : Bool) :
    (Java_dev_rylry_clip_NativeAudio_stop g).gCallback.mBuffer = g.gCallback.mBuffer
    ∧ (Java_dev_rylry_clip_NativeAudio_stop g).gCallback.mWriteIndex = g.gCallback.mWriteIndex
    ∧ (Java_dev_rylry_clip_NativeAudio_stop g).gCallback.copySnapshot C out n
        = g.gCallback.copySnapshot C out n
    ∧ (Java_dev_rylry_clip_NativeAudio_copySnapshot C
          (Java_dev_rylry_clip_NativeAudio_stop g) outArray pinned).2
        = (Java_dev_rylry_clip_NativeAudio_copySnapshot C g outArray pinned).2 := by
  have h : (Java_dev_rylry_clip_NativeAudio_stop g).gCallback = g.gCallback := by
    unfold Java_dev_rylry_clip_NativeAudio_stop
    split <;> rfl
  refine ⟨by rw [h], by rw [h], by rw [h], ?_⟩
  unfold Java_dev_rylry_clip_NativeAudio_copySnapshot
  rw [h]
  cases outArray with
  | none => rfl
  | some bytes => cases pinned <;> rfl

/-- C10: a malformed read request is a no-op.  For every state, `copySnapshot(out, frames)` with
`frames <= 0` or a null `out` returns with `out` and the object unchanged, and the JNI
`copySnapshot` with a null array or an array of length 0 returns with the array and the globals
unchanged. -/
theorem C10_malformed_read_noop (C : Nat) (g : Globals) (cb : InputCallback)
    (out : Option (List Int)) (frames : Int) (pinned : Bool) :
    (frames ≤ 0 → cb.copySnapshot C out frames = (cb, out))
    ∧ cb.copySnapshot C none frames = (cb, none)
    ∧ Java_dev_rylry_clip_NativeAudio_copySnapshot C g none pinned = (g, none)
    ∧ Java_dev_rylry_clip_NativeAudio_copySnapshot C g (some []) pinned = (g, some []) := by
  refine ⟨?_, rfl, rfl, ?_⟩
  · intro hf
    unfold InputCallback.copySnapshot
    cases out with
    | none => rfl
    | some o => simp only; rw [if_pos hf]
  · cases pinned <;> rfl

/-- C10 (witness): `copySnapshot(out, -3)` and `copySnapshot(out, 0)` on the store `[4, 5]`. -/
theorem C10_malformed_read_noop_witness :
    InputCallback.copySnapshot 2 { mBuffer := [4, 5], mWriteIndex := 1 } (some [9, 9]) (-3)
      = ({ mBuffer := [4, 5], mWriteIndex := 1 }, some [9, 9])
    ∧ InputCallback.copySnapshot 2 { mBuffer := [4, 5], mWriteIndex := 1 } (some [9, 9]) 0
      = ({ mBuffer := [4, 5], mWriteIndex := 1 }, some [9, 9]) :=
  ⟨(C10_malformed_read_noop 2 (Globals.init 2) { mBuffer := [4, 5], mWriteIndex := 1 }
      (some [9, 9]) (-3) true).1 (by decide),
   (C10_malformed_read_noop 2 (Globals.init 2) { mBuffer := [4, 5], mWriteIndex := 1 }
      (some [9, 9]) 0 true).1 (by decide)⟩

/-- C11: readers never mutate shared state.  For every state and every argument,
`copySnapshot`, the JNI `copySnapshot` and `isRecordingActive` return with the sample store, the
write cursor, the running flag and `gLastCallbackNs` unchanged; so a second `copySnapshot` with
the same frame count, issued right after a first one, gives the same output, and the samples it
produces do not depend on the previous contents of the output buffer. -/
theorem C11_readers_do_not_mutate (C : Nat) (g : Globals) (cb : InputCallback)
    (out : Option (List Int)) (frames : Int) (outArray : Option (List Int)) (pinned : Bool)
    (now : Int) :
    (cb.copySnapshot C out frames).1 = cb
    ∧ (Java_dev_rylry_clip_NativeAudio_copySnapshot C g outArray pinned).1 = g
    ∧ (Java_dev_rylry_clip_NativeAudio_isRecordingActive g now).1 = g
    ∧ ((cb.copySnapshot C out frames).1.copySnapshot C out frames).2
        = (cb.copySnapshot C out frames).2
    ∧ (∀ out1 out2 : List Int, 0 < frames →
        (totalSamples C frames).toNat ≤ out1.length →
        (totalSamples C frames).toNat ≤ out2.length →
        ∃ r1 r2 : List Int,
          (cb.copySnapshot C (some out1) frames).2 = some r1
          ∧ ((cb.copySnapshot C (some out1) frames).1.copySnapshot C (some out2) frames).2
              = some r2
          ∧ r1.take (totalSamples C frames).toNat = r2.take (totalSamples C frames).toNat) := by
  refine ⟨copySnapshot_fst C cb out frames, jni_copySnapshot_fst C g outArray pinned, ?_,
    by rw [copySnapshot_fst], ?_⟩
  · unfold Java_dev_rylry_clip_NativeAudio_isRecordingActive
    split <;> rfl
  · intro out1 out2 hf h1 h2
    have hlenmap : ((List.range' 0 (totalSamples C frames).toNat).map
        (snapshotSample C cb (totalSamples C frames))).length = (totalSamples C frames).toNat := by
      simp
    have e1 := copySnapshot_some C cb out1 frames hf h1
    have e2 := copySnapshot_some C cb out2 frames hf h2
    refine ⟨_, _, e1, by rw [copySnapshot_fst]; exact e2, ?_⟩
    rw [List.take_left' hlenmap, List.take_left' hlenmap]

/-- C11 (witness): store `[1, 2, 3]` with cursor 1, two snapshots of two frames into different
output buffers. -/
theorem C11_readers_do_not_mutate_witness :
    ∃ r1 r2 : List Int,
      (InputCallback.copySnapshot 3 { mBuffer := [1, 2, 3], mWriteIndex := 1 }
          (some [9, 9, 9]) 2).2 = some r1
      ∧ ((InputCallback.copySnapshot 3 { mBuffer := [1, 2, 3], mWriteIndex := 1 }
            (some [9, 9, 9]) 2).1.copySnapshot 3 (some [8, 8]) 2).2 = some r2
      ∧ r1.take (totalSamples 3 2).toNat = r2.take (totalSamples 3 2).toNat :=
  (C11_readers_do_not_mutate 3 (Globals.init 3) { mBuffer := [1, 2, 3], mWriteIndex := 1 }
    none 2 none true 0).2.2.2.2 [9, 9, 9] [8, 8] (by decide) (by decide) (by decide)

/-- C12 (counterexample): from the initial state a successful `start()` leaves the running flag
false, and the next delivery callback changes it from false to true. -/
theorem C12_running_flag_counterexample :
    (Java_dev_rylry_clip_NativeAudio_start (Globals.init 2) OboeResult.OK true).gRecordingActive
        ≠ true
    ∧ (onAudioReady 2
          (Java_dev_rylry_clip_NativeAudio_start (Globals.init 2) OboeResult.OK true)
          5 (some [1]) 1).1.gRecordingActive
        ≠ (Java_dev_rylry_clip_NativeAudio_start (Globals.init 2)
            OboeResult.OK true).gRecordingActive := by
  decide

/-- C12 (amended): the running flag follows the data flow.  A delivery callback with non-null
data sets it to true whatever it was, a callback with null data leaves it unchanged, `start()`
never changes it (whatever the outcome of opening the stream), and `stop()` sets it to false
when a stream is held and leaves it unchanged otherwise. -/
theorem C12_running_flag_amended (C : Nat) (g : Globals) (now : Int) (input : List Int)
    (numFrames : Int) (r : OboeResult) (opened : Bool) :
    (onAudioReady C g now (some input) numFrames).1.gRecordingActive = true
    ∧ (onAudioReady C g now none numFrames).1.gRecordingActive = g.gRecordingActive
    ∧ (Java_dev_rylry_clip_NativeAudio_start g r opened).gRecordingActive = g.gRecordingActive
    ∧ (Java_dev_rylry_clip_NativeAudio_stop g).gRecordingActive
        = (if g.gStream.isSome then false else g.gRecordingActive) := by
  refine ⟨rfl, rfl, start_gRecordingActive g r opened, ?_⟩
  unfold Java_dev_rylry_clip_NativeAudio_stop
  cases h : g.gStream <;> simp

/-- C13 (counterexample): capacity 1, store `[5]`, a four-byte destination `[7, 7, 7, 7]`.
Here `L / 2 = 2` exceeds the capacity and `n = 1`; the call leaves `[5, 0, 0, 0]`, so the bytes
at index 2 and 3 (both `≥ 2n`) are not left unchanged. -/
theorem C13_jni_bytes_counterexample :
    (min (((([(7 : Int), 7, 7, 7].length / 2 : Nat) : Int)) * (CHANNELS : Int)) ((1 : Nat) : Int)).toNat = 1
    ∧ (Java_dev_rylry_clip_NativeAudio_copySnapshot 1
          { gStream := none, gRecordingActive := false, gLastCallbackNs := 0,
            gCallback := { mBuffer := [5], mWriteIndex := 0 } }
          (some [7, 7, 7, 7]) true).2 = some [5, 0, 0, 0]
    ∧ ([(5 : Int), 0, 0, 0])[2]? ≠ ([(7 : Int), 7, 7, 7])[2]? := by
  decide

/-- C13 (amended): for every destination of length `L`, with `n = min(L / 2 * CHANNELS, C)`,
the JNI `copySnapshot` leaves in bytes `0 .. 2n-1` the little-endian encoding of the `n`
snapshot samples, sets the bytes `2n .. 2 * (L / 2) - 1` to zero (the zero-filled rest of the
temporary, present when `L / 2` exceeds `C`), leaves every byte from `2 * (L / 2)` on unchanged,
and does not change the globals. -/
theorem C13_jni_bytes_amended (C : Nat) (g : Globals) (bytes : List Int) :
    Java_dev_rylry_clip_NativeAudio_copySnapshot C g (some bytes) true
      = (g, some
          (encodeLE
              ((List.range' 0
                  (min (((bytes.length / 2 : Nat) : Int) * (CHANNELS : Int)) (C : Int)).toNat).map
                (snapshotSample C g.gCallback
                  (min (((bytes.length / 2 : Nat) : Int) * (CHANNELS : Int)) (C : Int))))
            ++ List.replicate
                (2 * (bytes.length / 2
                  - (min (((bytes.length / 2 : Nat) : Int) * (CHANNELS : Int)) (C : Int)).toNat)) 0
            ++ bytes.drop (2 * (bytes.length / 2)))) := by
  obtain ⟨temp, ht, _, _, hjni⟩ :=
    jni_copySnapshot_eq C g bytes (fun _ => True) trivial (fun _ _ => trivial)
  have hts : totalSamples C ((bytes.length / 2 : Nat) : Int)
      = min (((bytes.length / 2 : Nat) : Int) * (CHANNELS : Int)) (C : Int) := rfl
  rw [hjni, ← hts]
  have hle : (totalSamples C ((bytes.length / 2 : Nat) : Int)).toNat ≤ bytes.length / 2 := by
    rw [hts]; simp only [CHANNELS]; omega
  have htemp : temp
      = (List.range' 0 (totalSamples C ((bytes.length / 2 : Nat) : Int)).toNat).map
          (snapshotSample C g.gCallback (totalSamples C ((bytes.length / 2 : Nat) : Int)))
        ++ List.replicate
            (bytes.length / 2 - (totalSamples C ((bytes.length / 2 : Nat) : Int)).toNat) 0 := by
    rcases Nat.eq_zero_or_pos (bytes.length / 2) with h0 | hpos
    · rw [h0] at ht ⊢
      have : totalSamples C ((0 : Nat) : Int) = 0 := by
        unfold totalSamples; simp
      rw [this]
      have h := ht
      unfold InputCallback.copySnapshot at h
      simp at h
      simp [← h]
    · have h := copySnapshot_some C g.gCallback (List.replicate (bytes.length / 2) 0)
        ((bytes.length / 2 : Nat) : Int) (by omega) (by simpa using hle)
      rw [ht, List.drop_replicate] at h
      exact Option.some.inj h
  rw [htemp, encodeLE_append, encodeLE_replicate_zero]

/-- C14: start/stop idempotency, the outcome of opening the stream being an input that obeys
the contract of the library.  `start()` with a stream already held changes nothing; `start()`
whose open fails leaves the whole state unchanged, with no stream held, and in a reachable
state the running flag is then false and `isRecordingActive` stays false; `stop()` without a
stream changes nothing, so a second `stop()` changes nothing. -/
theorem C14_start_stop_idempotent (C : Nat) (g : Globals) (r : OboeResult) (opened : Bool) :
    (g.gStream ≠ none → Java_dev_rylry_clip_NativeAudio_start g r opened = g)
    ∧ (g.gStream = none → OpenContract r opened → OpenFailed r opened →
        Java_dev_rylry_clip_NativeAudio_start g r opened = g
        ∧ (Java_dev_rylry_clip_NativeAudio_start g r opened).gStream = none)
    ∧ (∀ tr : List Event, runTrace C (Globals.init C) tr = some g →
        g.gStream = none → OpenContract r opened → OpenFailed r opened →
        (Java_dev_rylry_clip_NativeAudio_start g r opened).gRecordingActive = false
        ∧ ∀ now : Int,
            (Java_dev_rylry_clip_NativeAudio_isRecordingActive
              (Java_dev_rylry_clip_NativeAudio_start g r opened) now).2 = false)
    ∧ (g.gStream = none → Java_dev_rylry_clip_NativeAudio_stop g = g)
    ∧ Java_dev_rylry_clip_NativeAudio_stop (Java_dev_rylry_clip_NativeAudio_stop g)
        = Java_dev_rylry_clip_NativeAudio_stop g := by
  refine ⟨start_of_stream g r opened, ?_, ?_, stop_of_noStream g, ?_⟩
  · intro hs hc hf
    have h := start_of_failed g r opened hs hc hf
    exact ⟨h, by rw [h]; exact hs⟩
  · intro tr hrun hs hc hf
    have h := start_of_failed g r opened hs hc hf
    have hflag := runTrace_noStream_notActive C tr (Globals.init C) g (fun _ => rfl) hrun hs
    rw [h]
    refine ⟨hflag, ?_⟩
    intro now
    simp [Java_dev_rylry_clip_NativeAudio_isRecordingActive, hflag]
  · exact stop_of_noStream _ (stop_gStream g)

/-- C14 (witness): a state reached by `start()`, a callback and `stop()`; then a `start()`
whose open fails with error code `-1`, and a `start()` on a held stream. -/
theorem C14_start_stop_idempotent_witness :
    (Java_dev_rylry_clip_NativeAudio_start
        { gStream := some { started := true }, gRecordingActive := true, gLastCallbackNs := 100,
          gCallback := { mBuffer := [7, 0], mWriteIndex := 1 } } OboeResult.OK true
      = { gStream := some { started := true }, gRecordingActive := true, gLastCallbackNs := 100,
          gCallback := { mBuffer := [7, 0], mWriteIndex := 1 } })
    ∧ (Java_dev_rylry_clip_NativeAudio_start
          { gStream := none, gRecordingActive := false, gLastCallbackNs := 100,
            gCallback := { mBuffer := [7, 0], mWriteIndex := 1 } } (OboeResult.Error (-1)) false
        = { gStream := none, gRecordingActive := false, gLastCallbackNs := 100,
            gCallback := { mBuffer := [7, 0], mWriteIndex := 1 } })
    ∧ (Java_dev_rylry_clip_NativeAudio_isRecordingActive
          (Java_dev_rylry_clip_NativeAudio_start
            { gStream := none, gRecordingActive := false, gLastCallbackNs := 100,
              gCallback := { mBuffer := [7, 0], mWriteIndex := 1 } }
            (OboeResult.Error (-1)) false) 101).2 = false
    ∧ (Java_dev_rylry_clip_NativeAudio_stop
          { gStream := none, gRecordingActive := false, gLastCallbackNs := 100,
            gCallback := { mBuffer := [7, 0], mWriteIndex := 1 } }
        = { gStream := none, gRecordingActive := false, gLastCallbackNs := 100,
            gCallback := { mBuffer := [7, 0], mWriteIndex := 1 } }) :=
  ⟨(C14_start_stop_idempotent 2
        { gStream := some { started := true }, gRecordingActive := true, gLastCallbackNs := 100,
          gCallback := { mBuffer := [7, 0], mWriteIndex := 1 } } OboeResult.OK true).1
      (by decide),
   ((C14_start_stop_idempotent 2
        { gStream := none, gRecordingActive := false, gLastCallbackNs := 100,
          gCallback := { mBuffer := [7, 0], mWriteIndex := 1 } } (OboeResult.Error (-1)) false).2.1
      rfl (by decide) (by decide)).1,
   ((C14_start_stop_idempotent 2
        { gStream := none, gRecordingActive := false, gLastCallbackNs := 100,
          gCallback := { mBuffer := [7, 0], mWriteIndex := 1 } }
        (OboeResult.Error (-1)) false).2.2.1
      [Event.start OboeResult.OK true, Event.callback 100 (some [7]) 1, Event.stop]
      (by decide) rfl (by decide) (by decide)).2 101,
   (C14_start_stop_idempotent 2
        { gStream := none, gRecordingActive := false, gLastCallbackNs := 100,
          gCallback := { mBuffer := [7, 0], mWriteIndex := 1 } }
        (OboeResult.Error (-1)) false).2.2.2.1 rfl⟩

/-- C16: index safety.  In every state reached from construction by any sequence of
`onAudioReady`, `copySnapshot`, `start` and `stop` calls (capacity `C > 0` with `2 * C ≤ 2^31`,
which holds for `BUFFER_SIZE`), the write cursor lies in `[0, C)` and the store has `C` slots;
for every `frames > 0` the start index and every store index read by `copySnapshot` lie in
`[0, C)`, the intermediate values `write - n + C` and `start + i` being non-negative and below
`2^31`; and every store index written by `onAudioReady` lies in `[0, C)`. -/
theorem C16_index_safety (C : Nat) (hC : 0 < C) (hC31 : 2 * C ≤ 2 ^ 31) (calls : List Call) :
    (0 ≤ (runCalls C (Globals.init C) calls).gCallback.mWriteIndex
      ∧ (runCalls C (Globals.init C) calls).gCallback.mWriteIndex < (C : Int)
      ∧ (runCalls C (Globals.init C) calls).gCallback.mBuffer.length = C)
    ∧ (∀ frames : Int, 0 < frames →
        0 ≤ (runCalls C (Globals.init C) calls).gCallback.mWriteIndex
              - totalSamples C frames + (C : Int)
        ∧ (runCalls C (Globals.init C) calls).gCallback.mWriteIndex
              - totalSamples C frames + (C : Int) < 2 ^ 31
        ∧ 0 ≤ snapshotStart C (runCalls C (Globals.init C) calls).gCallback.mWriteIndex
                (totalSamples C frames)
        ∧ snapshotStart C (runCalls C (Globals.init C) calls).gCallback.mWriteIndex
                (totalSamples C frames) < (C : Int)
        ∧ ∀ i : Nat, (i : Int) < totalSamples C frames →
            0 ≤ snapshotStart C (runCalls C (Globals.init C) calls).gCallback.mWriteIndex
                  (totalSamples C frames) + (i : Int)
            ∧ snapshotStart C (runCalls C (Globals.init C) calls).gCallback.mWriteIndex
                  (totalSamples C frames) + (i : Int) < 2 ^ 31
            ∧ 0 ≤ readIndex C
                  (snapshotStart C (runCalls C (Globals.init C) calls).gCallback.mWriteIndex
                    (totalSamples C frames)) i
            ∧ readIndex C
                  (snapshotStart C (runCalls C (Globals.init C) calls).gCallback.mWriteIndex
                    (totalSamples C frames)) i < (C : Int))
    ∧ (∀ k : Nat,
        ∀ idx ∈ writeLoopIdx C k (runCalls C (Globals.init C) calls).gCallback.mWriteIndex,
          0 ≤ idx ∧ idx < (C : Int) ∧ idx + 1 < 2 ^ 31)
    ∧ (0 < BUFFER_SIZE ∧ 2 * BUFFER_SIZE ≤ 2 ^ 31) := by
  have hwf := runCalls_wellFormed C hC calls (Globals.init C) (wellFormed_new C hC)
  obtain ⟨hlen, h0, hlt⟩ := hwf
  have hC31i : 2 * (C : Int) ≤ 2 ^ 31 := by exact_mod_cast hC31
  have hCi : (0 : Int) < (C : Int) := by exact_mod_cast hC
  refine ⟨⟨h0, hlt, hlen⟩, ?_, ?_, ?_⟩
  · intro frames hf
    generalize (runCalls C (Globals.init C) calls).gCallback.mWriteIndex = w at h0 hlt ⊢
    have hn1 : 1 ≤ totalSamples C frames := by
      unfold totalSamples CHANNELS; simp; omega
    have hn2 : totalSamples C frames ≤ (C : Int) := by
      unfold totalSamples; exact min_le_right _ _
    generalize totalSamples C frames = n at hn1 hn2 ⊢
    have hs : snapshotStart C w n = (w - n + (C : Int)) % (C : Int) := by
      unfold snapshotStart
      exact Int.tmod_eq_emod (by omega) (by omega)
    have hs0 : 0 ≤ snapshotStart C w n := by rw [hs]; exact Int.emod_nonneg _ (by omega)
    have hs1 : snapshotStart C w n < (C : Int) := by
      rw [hs]; exact Int.emod_lt_of_pos _ hCi
    refine ⟨by omega, by omega, hs0, hs1, ?_⟩
    intro i hi
    have hr : readIndex C (snapshotStart C w n) i
        = (snapshotStart C w n + (i : Int)) % (C : Int) := by
      unfold readIndex
      exact Int.tmod_eq_emod (by omega) (by omega)
    refine ⟨by omega, by omega, ?_, ?_⟩
    · rw [hr]; exact Int.emod_nonneg _ (by omega)
    · rw [hr]; exact Int.emod_lt_of_pos _ hCi
  · intro k idx hidx
    have hb := writeLoopIdx_bounds C hC k _ h0 hlt idx hidx
    exact ⟨hb.1, hb.2, by omega⟩
  · unfold BUFFER_SIZE SAMPLE_RATE CHANNELS DURATION_SECONDS
    norm_num

/-- C16 (witness): capacity 3, the calls `start()`, a delivery of four samples, a snapshot and
`stop()`. -/
theorem C16_index_safety_witness :
    0 ≤ (runCalls 3 (Globals.init 3)
          [Call.start OboeResult.OK true, Call.onAudioReady 5 (some [1, 2, 3, 4]) 4,
           Call.copySnapshot (some [0, 0]) 2, Call.stop]).gCallback.mWriteIndex
    ∧ (runCalls 3 (Globals.init 3)
          [Call.start OboeResult.OK true, Call.onAudioReady 5 (some [1, 2, 3, 4]) 4,
           Call.copySnapshot (some [0, 0]) 2, Call.stop]).gCallback.mWriteIndex < ((3 : Nat) : Int)
    ∧ (runCalls 3 (Globals.init 3)
          [Call.start OboeResult.OK true, Call.onAudioReady 5 (some [1, 2, 3, 4]) 4,
           Call.copySnapshot (some [0, 0]) 2, Call.stop]).gCallback.mBuffer.length = 3 :=
  (C16_index_safety 3 (by decide) (by decide)
    [Call.start OboeResult.OK true, Call.onAudioReady 5 (some [1, 2, 3, 4]) 4,
     Call.copySnapshot (some [0, 0]) 2, Call.stop]).1

/-- C17: write effect.  For every state with cursor `w` in `[0, C)` and every `onAudioReady`
call delivering the `k` samples of a non-null `input`, the sample at input position `i` is
stored at slot `(w + i) mod C`, position after position, the new cursor is `(w + k) mod C`, and
in a store of `C` slots the slot `(w + i) mod C` ends up holding `input[i]` for each of the last
`C` positions; a call with `numFrames <= 0` leaves the sample store and the cursor unchanged. -/
theorem C17_write_effect (C : Nat) (g : Globals) (w : Nat) (now : Int) (input : List Int)
    (hw : g.gCallback.mWriteIndex = (w : Int)) (hwC : w < C) :
    (onAudioReady C g now (some input) (input.length : Int)).1.gCallback.mBuffer
        = storeAll C input w g.gCallback.mBuffer
    ∧ (onAudioReady C g now (some input) (input.length : Int)).1.gCallback.mWriteIndex
        = (((w + input.length) % C : Nat) : Int)
    ∧ (g.gCallback.mBuffer.length = C →
        ∀ i : Nat, i < input.length → input.length ≤ i + C →
          (onAudioReady C g now (some input) (input.length : Int)).1.gCallback.mBuffer.getD
              ((w + i) % C) 0 = input.getD i 0)
    ∧ (∀ numFrames : Int, numFrames ≤ 0 →
        (onAudioReady C g now (some input) numFrames).1.gCallback = g.gCallback) := by
  have hloop : writeLoop C input input.length 0 g.gCallback.mBuffer g.gCallback.mWriteIndex
      = (storeAll C input w g.gCallback.mBuffer, (((w + input.length) % C : Nat) : Int)) := by
    have h := writeLoop_storeAll C input input.length 0 w g.gCallback.mBuffer (by omega)
    rw [Nat.mod_eq_of_lt hwC, List.drop_zero, List.take_length] at h
    rw [hw, h]
  have hbuf : (onAudioReady C g now (some input) (input.length : Int)).1.gCallback.mBuffer
      = storeAll C input w g.gCallback.mBuffer := by
    simp [onAudioReady, CHANNELS, hloop]
  refine ⟨hbuf, by simp [onAudioReady, CHANNELS, hloop], ?_, ?_⟩
  · intro hlen i hi hk
    rw [hbuf]
    exact storeAll_getD C input w i _ hlen hi hk
  · intro numFrames hn
    have h0 : (numFrames * ((CHANNELS : Nat) : Int)).toNat = 0 := by
      simp only [CHANNELS]; omega
    simp only [onAudioReady, h0, writeLoop]

/-- C17 (witness): capacity 3, store `[0, 0, 0]` with cursor 2, a delivery of `[1, 2, 3, 4]`:
the store becomes `[2, 3, 4]` and the cursor `0`. -/
theorem C17_write_effect_witness :
    (onAudioReady 3
        { gStream := some { started := true }, gRecordingActive := false, gLastCallbackNs := 0,
          gCallback := { mBuffer := [0, 0, 0], mWriteIndex := 2 } }
        9 (some [1, 2, 3, 4]) (([(1 : Int), 2, 3, 4].length : Nat) : Int)).1.gCallback.mBuffer
      = [2, 3, 4]
    ∧ (onAudioReady 3
        { gStream := some { started := true }, gRecordingActive := false, gLastCallbackNs := 0,
          gCallback := { mBuffer := [0, 0, 0], mWriteIndex := 2 } }
        9 (some [1, 2, 3, 4]) (([(1 : Int), 2, 3, 4].length : Nat) : Int)).1.gCallback.mWriteIndex
      = 0 :=
  ⟨(C17_write_effect 3
      { gStream := some { started := true }, gRecordingActive := false, gLastCallbackNs := 0,
        gCallback := { mBuffer := [0, 0, 0], mWriteIndex := 2 } }
      2 9 [1, 2, 3, 4] rfl (by decide)).1.trans (by decide),
   (C17_write_effect 3
      { gStream := some { started := true }, gRecordingActive := false, gLastCallbackNs := 0,
        gCallback := { mBuffer := [0, 0, 0], mWriteIndex := 2 } }
      2 9 [1, 2, 3, 4] rfl (by decide)).2.1.trans (by decide)⟩

/-- C18: batching independence.  For every state and every two sample sequences `a` and `b`,
delivering `a ++ b` in one `onAudioReady` call leaves the sample store and the write cursor
exactly as delivering `a` and then `b` in two consecutive calls does. -/
theorem C18_batching_independence (C : Nat) (g : Globals) (t t1 t2 : Int) (a b : List Int) :
    (deliver C g t (a ++ b)).gCallback = (deliver C (deliver C g t1 a) t2 b).gCallback := by
  rw [deliver_gCallback, deliver_gCallback C (deliver C g t1 a), deliver_gCallback C g t1 a,
    List.length_append, writeLoop_split]
  simp only
  have hl := writeLoop_append_left C a b a.length 0 g.gCallback.mBuffer
    g.gCallback.mWriteIndex (by omega)
  have hr := writeLoop_append_right C a b b.length 0
  rw [Nat.add_zero] at hr
  rw [Nat.zero_add, hl, hr]

/-- C19: absent-data callback.  For every state, `onAudioReady` called with null `audioData`
leaves the sample store, the write cursor, the running flag and `gLastCallbackNs` unchanged (the
whole state is); and for every input `onAudioReady` returns `Continue`, never `Stop`. -/
theorem C19_absent_data_callback (C : Nat) (g : Globals) (now : Int)
    (audioData : Option (List Int)) (numFrames : Int) :
    (onAudioReady C g now none numFrames).1 = g
    ∧ (onAudioReady C g now audioData numFrames).2 = DataCallbackResult.Continue
    ∧ (onAudioReady C g now audioData numFrames).2 ≠ DataCallbackResult.Stop := by
  have h : (onAudioReady C g now audioData numFrames).2 = DataCallbackResult.Continue := by
    unfold onAudioReady
    split <;> rfl
  refine ⟨rfl, h, ?_⟩
  rw [h]
  decide

end Clipshot
